import Mathlib

/-!
Shallow embedding of the settings-manipulation library r_django_essentials
(files r_django_essentials/conf.py, r_django_essentials/utils/conf.py,
r_django_essentials/utils/importing.py, r_django_essentials/utils/common.py)
together with proofs about the behaviour of its operations.

Python values that the code manipulates are modelled by the inductive type
Value; a module (the settings namespace, and modules found by the import
machinery) is a name together with an attribute list; the outside world
(importable modules, os.environ, the random key generator, the json parser)
is a record of finite maps and abstract functions.  Machine-level details
(reference identity, printing to stderr) are elided; warnings are modelled
as an explicit output list; exceptions are modelled with Except.
-/

/-- Python exceptions that the modelled code can raise. -/
inductive PyErr : Type where
  | importError (name : String)
  | keyError (key : String)
  | nameError (name : String)
  | typeError (what : String)
  | assertionError
  | recursionError
deriving DecidableEq, Repr

/-- Declaration shapes of the context_processors attribute of an AppConfig:
absent (getattr default None), a plain string, an iterable of strings, or a
mapping from backend name to processors. -/
inductive CPDecl : Type where
  | none
  | str (s : String)
  | iter (l : List String)
  | dict (m : List (String × List String))
deriving DecidableEq, Repr

mutual
/-- A django AppConfig as far as the library reads it: its name, its
required_apps attribute (the empty list behaves like the falsy values None
and (), which the code treats identically), and its context_processors
attribute. -/
inductive AppCfg : Type where
  | mk (name : String) (required_apps : List Entry) (context_processors : CPDecl)

/-- An element of an installed-apps list: either an importable application
name (a string) or an AppConfig object. -/
inductive Entry : Type where
  | str (s : String)
  | app (c : AppCfg)
end

def AppCfg.name : AppCfg → String
  | .mk n _ _ => n

def AppCfg.required_apps : AppCfg → List Entry
  | .mk _ r _ => r

def AppCfg.context_processors : AppCfg → CPDecl
  | .mk _ _ p => p

/-- The environment of importable applications: AppConfig.create looks an
application name up among the importable app modules; an absent name raises
ImportError. -/
abbrev AppEnv : Type := List (String × AppCfg)

def lookupEnv : AppEnv → String → Option AppCfg
  | [], _ => Option.none
  | (k, c) :: rest, s => if k = s then some c else lookupEnv rest s

/-- One step of the ensure_app_configs generator (utils/conf.py lines 8-14):
an AppConfig passes through unchanged, a string goes through
AppConfig.create, modelled as a lookup among the importable apps. -/
def resolveEntry (env : AppEnv) : Entry → Option AppCfg
  | .app c => some c
  | .str s => lookupEnv env s

mutual
/-- The loop body of populate in expand_required_apps (conf.py lines 62-73)
over a list of entries.  The fuel argument models the CPython recursion
limit: every step consumes one unit and exhaustion raises RecursionError;
with enough fuel the behaviour is exactly that of the source. -/
def populateList (env : AppEnv) : Nat → List String → List AppCfg → List Entry →
    Except PyErr (List String × List AppCfg)
  | 0, _, _, _ => .error .recursionError
  | _ + 1, visited, expanded, [] => .ok (visited, expanded)
  | f + 1, visited, expanded, e :: rest => do
    let (v, x) ← populateEntry env f visited expanded e
    populateList env f v x rest

/-- Processing of a single entry by populate: resolve it to an AppConfig,
skip it if its name was already visited, otherwise mark it visited, recurse
into its required_apps when that attribute is truthy, and append the config
after its requirements (conf.py lines 63-72). -/
def populateEntry (env : AppEnv) : Nat → List String → List AppCfg → Entry →
    Except PyErr (List String × List AppCfg)
  | 0, _, _, _ => .error .recursionError
  | f + 1, visited, expanded, e =>
    match resolveEntry env e with
    | Option.none =>
        .error (.importError (match e with | .str s => s | .app c => c.name))
    | some c =>
      if c.name ∈ visited then .ok (visited, expanded)
      else
        let visited' := c.name :: visited
        if c.required_apps.isEmpty then .ok (visited', expanded ++ [c])
        else do
          let (v, x) ← populateList env f visited' expanded c.required_apps
          .ok (v, x ++ [c])
end

/-- expand_required_apps (conf.py lines 53-75) with the default option
required_apps: depth-first expansion of an installed-apps list by the
required_apps attributes of its AppConfigs. -/
def expand_required_apps (env : AppEnv) (fuel : Nat) (installed_apps : List Entry) :
    Except PyErr (List AppCfg) :=
  (populateList env fuel [] [] installed_apps).map (·.2)

/-- Names of a list of AppConfigs, in order. -/
def cfgNames (l : List AppCfg) : List String := l.map AppCfg.name

/-! ## Python values, truthiness, and dictionary operations -/

/-- The Python values the settings code manipulates. -/
inductive Value : Type where
  | none
  | bool (b : Bool)
  | int (n : Int)
  | str (s : String)
  | list (xs : List Value)
  | tuple (xs : List Value)
  | dict (m : List (String × Value))
  | app (c : AppCfg)

/-- Python truthiness for the modelled values. -/
def truthy : Value → Bool
  | .none => false
  | .bool b => b
  | .int n => n ≠ 0
  | .str s => s ≠ ""
  | .list xs => !xs.isEmpty
  | .tuple xs => !xs.isEmpty
  | .dict m => !m.isEmpty
  | .app _ => true

/-- A Python dict with string keys, in insertion order. -/
abbrev Dict : Type := List (String × Value)

/-- Dictionary lookup: d.get(k) / d[k] (first binding wins; bindings are
kept unique by dSet). -/
def dGet : Dict → String → Option Value
  | [], _ => Option.none
  | (k, v) :: rest, key => if k = key then some v else dGet rest key

/-- d.get(k, default). -/
def dGetD (d : Dict) (key : String) (dflt : Value) : Value :=
  (dGet d key).getD dflt

/-- d[k] = v: replace the value of an existing binding in place, else append
a new binding (Python dict insertion-order semantics). -/
def dSet : Dict → String → Value → Dict
  | [], key, v => [(key, v)]
  | (k, w) :: rest, key, v =>
    if k = key then (k, v) :: rest else (k, w) :: dSet rest key v

/-- d.pop(k): the removed value and the remaining dict, or none when the key
is absent (the caller raises KeyError). -/
def dPop : Dict → String → Option (Value × Dict)
  | [], _ => Option.none
  | (k, v) :: rest, key =>
    if k = key then some (v, rest)
    else (dPop rest key).map (fun p => (p.1, (k, v) :: p.2))

/-- Keys of a dict, in order. -/
def dKeys (d : Dict) : List String := d.map Prod.fst

/-- d.setdefault(k, dflt): the value now under the key, and the dict after
the call. -/
def dSetdefault (d : Dict) (key : String) (dflt : Value) : Value × Dict :=
  match dGet d key with
  | some v => (v, d)
  | Option.none => (dflt, d ++ [(key, dflt)])

/-! ## Python string helpers (codepoint-level, as in the source) -/

/-- str.startswith: the first len(p) codepoints equal p. -/
def pyStartsWith (s p : String) : Bool :=
  decide (s.data.take p.data.length = p.data)

/-- s[n:]: drop the first n codepoints. -/
def pyDrop (s : String) (n : Nat) : String :=
  ⟨s.data.drop n⟩

/-- str.isupper for the names the code filters: at least one cased character
and no lowercase cased character. -/
def pyIsUpper (s : String) : Bool :=
  s.data.any (fun c => c.isAlpha) && s.data.all (fun c => !c.isLower)

/-- s.rpartition(sep)[0] for a one-character separator: everything before
the last occurrence, or the empty string when the separator is absent. -/
def rpartBefore (s : String) (sep : Char) : String :=
  ⟨((s.data.reverse.dropWhile (· ≠ sep)).drop 1).reverse⟩

/-- sep.join(parts) for a one-character separator. -/
def joinSep (sep : Char) : List String → String
  | [] => ""
  | [p] => p
  | p :: rest => p ++ ⟨[sep]⟩ ++ joinSep sep rest

/-- str.split(sep) for a one-character separator. -/
def pySplit (s : String) (sep : Char) : List String :=
  (splitAux s.data sep).map (fun l => (⟨l⟩ : String))
where
  splitAux : List Char → Char → List (List Char)
    | [], _ => [[]]
    | c :: rest, sep =>
      if c = sep then [] :: splitAux rest sep
      else match splitAux rest sep with
        | [] => [[c]]
        | l :: ls => (c :: l) :: ls

/-- str.splitlines of a text (newline-terminated lines; a trailing newline
produces no extra empty line, as in Python). -/
def splitLinesChar : List Char → List (List Char)
  | [] => []
  | c :: cs =>
    if c = '\n' then [] :: splitLinesChar cs
    else match splitLinesChar cs with
      | [] => [[c]]
      | l :: ls => (c :: l) :: ls

/-- The unique helper (utils/common.py lines 21-26): remove duplicates
keeping the first occurrence of each element, as OrderedDict.fromkeys does. -/
def pyUniqueAux [DecidableEq α] : List α → List α → List α
  | _, [] => []
  | seen, x :: xs =>
    if x ∈ seen then pyUniqueAux seen xs else x :: pyUniqueAux (x :: seen) xs

def pyUnique [DecidableEq α] (l : List α) : List α := pyUniqueAux [] l

/-! ## Modules and the outside world -/

/-- A Python module as the library reads it: its dotted name and its
attribute namespace.  The settings object wrapped by SettingsDict
(utils/conf.py lines 48-104) is such a module; setattr and getattr are the
dictionary operations above. -/
structure PyModule where
  name : String
  attrs : Dict

/-- getattr(m, k), as an Option. -/
def getAttrM (m : PyModule) (k : String) : Option Value := dGet m.attrs k

/-- setattr(m, k, v). -/
def setAttrM (m : PyModule) (k : String) (v : Value) : PyModule :=
  { m with attrs := dSet m.attrs k v }

/-- dir(m): the attribute names of the module.  dir() additionally sorts the
names; none of the modelled operations is order-sensitive, so the sort is
omitted. -/
def pyDir (m : PyModule) : List String := pyUnique (dKeys m.attrs)

/-- SettingsDict.update (utils/conf.py lines 100-103): setattr for every
binding of the data dict. -/
def settingsUpdate (m : PyModule) (data : List (String × Value)) : PyModule :=
  data.foldl (fun s kv => setAttrM s kv.1 kv.2) m

/-- A warning emitted through utils.warning; the message formatting is kept
structurally. -/
inductive Warning : Type where
  | couldNotFind (what : String) (tried : List String)
  | fileDoesNotExist (filename : String)
  | couldNotImport (filename : String)
  | settingNotFound (setting : String) (file : String)
  | unableToCreate (setting : String) (file : String)

/-- The outside world as the library observes it: sys.modules, the
importable modules, the loadable python files, os.environ, the json parser
(abstract stdlib function), the next random secret key, and whether the
filesystem accepts writes. -/
structure World where
  sysmodules : List (String × PyModule)
  modules : List (String × PyModule)
  pyFiles : List (String × PyModule)
  environ : List (String × String)
  jsonLoads : String → Option Value
  generatedKey : String
  canWrite : Bool

def lookupStr {α : Type} : List (String × α) → String → Option α
  | [], _ => Option.none
  | (k, v) :: rest, key => if k = key then some v else lookupStr rest key

/-- str.endswith on codepoints. -/
def pyEndsWith (s p : String) : Bool :=
  decide (s.data.reverse.take p.data.length = p.data.reverse)

/-- The idiom x or dflt on an optional string argument: None and the empty
string are falsy and give the default. -/
def pyOrStr (o : Option String) (dflt : String) : String :=
  match o with
  | some s => if s = "" then dflt else s
  | Option.none => dflt

/-! ## Constants (conf.py lines 41-50) -/

def DEFAULT_TEMPLATE_BACKEND : String := "django.template.backends.django.DjangoTemplates"
def DEFAULT_ENVIRONMENT_PREFIX : String := "DJANGO_"
def DEFAULT_CACHED_BACKENDS : List String := ["django.template.backends.django.DjangoTemplates"]
def DEFAULT_CACHED_LOADER : String := "django.template.loaders.cached.Loader"
def DEFAULT_LOADER : String := "django.template.loaders.filesystem.Loader"
def DEFAULT_APP_LOADER : String := "django.template.loaders.app_directories.Loader"
def DEFAULT_LOCAL_SETTINGS_FILE : String := "local_settings"
def DEFAULT_SECRET_KEY_FILE : String := "secret_key"

/-! ## Module importing (utils/importing.py) -/

/-- The search bases of find_and_import_module (importing.py line 27): the
empty tuple followed by the accumulated prefixes of the dot-separated search
string; a falsy search string gives just the empty tuple. -/
def searchPrefixes (search : String) : List (List String) :=
  if search = "" then [[]] else (pySplit search '.').inits

/-- Try import_module on each candidate, modelling import_module as a lookup
among the importable modules (ImportError means absent and tries the next). -/
def tryImportModules (modules : List (String × PyModule)) : List String → Option PyModule
  | [] => Option.none
  | m :: rest =>
    match lookupStr modules m with
    | some md => some md
    | Option.none => tryImportModules modules rest

/-- find_and_import_module (importing.py lines 21-39): build the candidate
module names, most specific first, and import the first available; on total
failure return the list of candidates that were tried. -/
def find_and_import_module (modules : List (String × PyModule)) (name : String)
    (search : String) : Option PyModule × List String :=
  let cands :=
    ((searchPrefixes search).map (fun parts => joinSep '.' (parts ++ [name]))).reverse
  match tryImportModules modules cands with
  | some md => (some md, [])
  | Option.none => (Option.none, cands)

/-- file_path_from_module_name (importing.py lines 15-18): split every truthy
part at dots and join all the components with the path separator, appending
the .py suffix. -/
def file_path_from_module_name (parts : List String) : String :=
  joinSep '/' ((parts.filter (· ≠ "")).flatMap (fun p => pySplit p '.')) ++ ".py"

/-- load_module_from_file (importing.py lines 67-73) without the context
argument (unused by the callers modelled here): the path must end in .py
(assert), an absent file gives None, otherwise the module that executing the
file produces. -/
def load_module_from_file (pyFiles : List (String × PyModule)) (path : String) :
    Except PyErr (Option PyModule) :=
  if ¬ pyEndsWith path ".py" then .error .assertionError
  else .ok (lookupStr pyFiles path)

/-! ## Settings update passes (conf.py) -/

/-- update_settings_from_module (conf.py lines 143-167).  Returns the new
settings module, the return value (number of copied settings), and the
emitted warnings.  unload_module only drops the module from sys.modules and
is invisible here. -/
def effSearchBase (settings : PyModule) (search_base : Option String) : String :=
  match search_base with
  | some s => s
  | Option.none => rpartBefore settings.name '.'

def update_settings_from_module (modules : List (String × PyModule)) (settings : PyModule)
    (module_name : String) (search_base : Option String) (quiet : Bool) :
    PyModule × Nat × List Warning :=
  match find_and_import_module modules module_name (effSearchBase settings search_base) with
  | (some m, _) =>
    let upper := (pyDir m).filter pyIsUpper
    let data := upper.map (fun k => (k, (getAttrM m k).getD Value.none))
    (settingsUpdate settings data, data.length, [])
  | (Option.none, tried) =>
    (settings, 0, if quiet then [] else [.couldNotFind module_name tried])

/-- The keys of the environment that update_settings_from_environment
processes (conf.py lines 121-123): those starting with the prefix, with
DJANGO_SETTINGS_MODULE removed. -/
def envProcessedKeys (environ : List (String × String)) (pfx : String) : List String :=
  ((environ.map Prod.fst).filter (fun k => pyStartsWith k pfx)).erase
    "DJANGO_SETTINGS_MODULE"

/-- update_settings_from_environment (conf.py lines 111-140): every processed
key is parsed as JSON (falling back to the raw string; the json module is
abstract here) and stored under the key with the prefix stripped.  The
quiet flag only suppresses prints, which are not modelled. -/
def effEnvPfx (env_pfx : Option String) : String :=
  match env_pfx with
  | some p => p
  | Option.none => DEFAULT_ENVIRONMENT_PREFIX

def update_settings_from_environment (environ : List (String × String))
    (jsonLoads : String → Option Value) (settings : PyModule)
    (env_pfx : Option String) : PyModule :=
  let pfx := effEnvPfx env_pfx
  (envProcessedKeys environ pfx).foldl
    (fun s key =>
      let raw := (lookupStr environ key).getD ""
      let v : Value := match jsonLoads raw with
        | some j => j
        | Option.none => .str raw
      setAttrM s (pyDrop key pfx.data.length) v)
    settings

/-! ## Secret key file (utils/conf.py lines 17-31, conf.py lines 218-269) -/

/-- The apostrophe character used around the generated key. -/
def apos : String := String.singleton '\''

/-- The docstring header of the generated secret-key file. -/
def secretFileHeader : String :=
  "\"\"\"\nAutomatically generated file.\nThis needs to be unique and SECRET. It is also installation specific.\nThis file should be included from settings.py\n\"\"\"\n"

/-- The exact text create_secret_key_file writes (utils/conf.py lines 23-30):
the docstring header followed by the assignment line. -/
def create_secret_key_file_content (setting key : String) : String :=
  secretFileHeader ++ setting ++ " = " ++ apos ++ key ++ apos ++ "\n"

/-- create_secret_key_file (utils/conf.py lines 17-31): generate a key
(modelled by the world), write the file (an unwritable filesystem raises
IOError), and return the key together with the performed write. -/
def create_secret_key_file (generatedKey : String) (canWrite : Bool)
    (filename : String) (setting : Option String) :
    Except Unit (String × (String × String)) :=
  let st := pyOrStr setting "SECRET_KEY"
  if canWrite then
    .ok (generatedKey, (filename, create_secret_key_file_content st generatedKey))
  else .error ()

/-- update_secret_from_file (conf.py lines 218-269).  Returns the settings
module, the warnings, and the file writes performed. -/
def update_secret_from_file (w : World) (settings : PyModule)
    (secret_key_file : Option String) (search_base : Option String)
    (create_if_missing : Bool) (setting : Option String) :
    Except PyErr (PyModule × List Warning × List (String × String)) := do
  let skf := pyOrStr secret_key_file DEFAULT_SECRET_KEY_FILE
  let st := pyOrStr setting "SECRET_KEY"
  if truthy (dGetD settings.attrs st Value.none) then .ok (settings, [], [])
  else
    let sb := match search_base with
      | some s => s
      | Option.none => rpartBefore settings.name '.'
    let direct_file := '/' ∈ skf.data ∨ pyEndsWith skf ".py"
    let mod ← if direct_file then load_module_from_file w.pyFiles skf
              else .ok (find_and_import_module w.modules skf sb).1
    match mod with
    | some m =>
      match getAttrM m st with
      | some v => .ok (setAttrM settings st v, [], [])
      | Option.none => .ok (settings, [.settingNotFound st m.name], [])
    | Option.none =>
      if create_if_missing then
        let path := if direct_file then skf else file_path_from_module_name [sb, skf]
        match create_secret_key_file w.generatedKey w.canWrite path (some st) with
        | .ok (key, write) => .ok (setAttrM settings st (.str key), [], [write])
        | .error _ => .ok (settings, [.unableToCreate st path], [])
      else .ok (settings, [], [])

/-! ## Loader flattening and the cached template loader (utils/conf.py
lines 34-45, conf.py lines 294-318) -/

/-- Flattening of the elements of a loaders collection: a string element is
collected, a list or tuple element is flattened recursively (through the
truthiness check of flatten_loaders, which the empty case makes identical),
anything else is skipped by the isinstance chain. -/
def flattenElems : List Value → List String
  | [] => []
  | .str s :: vs => s :: flattenElems vs
  | .list xs :: vs => flattenElems xs ++ flattenElems vs
  | .tuple xs :: vs => flattenElems xs ++ flattenElems vs
  | _ :: vs => flattenElems vs

/-- flatten_loaders (utils/conf.py lines 34-45) on the full loaders value: a
falsy value flattens to nothing; iterating a string yields its characters
and iterating a dict yields its keys; a truthy non-iterable raises
TypeError.  The Python set is modelled as a list, used only through
membership. -/
def flatten_loaders (loaders : Value) : Except PyErr (List String) :=
  if truthy loaders then
    match loaders with
    | .list xs => .ok (flattenElems xs)
    | .tuple xs => .ok (flattenElems xs)
    | .str s => .ok (s.data.map (fun c => (⟨[c]⟩ : String)))
    | .dict m => .ok (dKeys m)
    | _ => .error (.typeError "is not iterable")
  else .ok []

/-- The loop body of use_cache_template_loader_in_production (conf.py lines
307-318) on one template configuration dict. -/
def wrapConfLoaders (cached_backends : List String) (conf : Dict) :
    Except PyErr Dict :=
  match dGet conf "BACKEND" with
  | Option.none => .error (.keyError "BACKEND")
  | some bv =>
    if (match bv with | .str b => cached_backends.contains b | _ => false) then
      let sd := dSetdefault conf "OPTIONS" (.dict [])
      match sd.1 with
      | .dict opts => do
        let conf1 := sd.2
        let loaders := dGetD opts "loaders" Value.none
        let flat ← flatten_loaders loaders
        if truthy loaders = false ∨ DEFAULT_CACHED_LOADER ∉ flat then
          let loaders2 :=
            if truthy loaders = false then
              Value.tuple
                (Value.str DEFAULT_LOADER ::
                  (if truthy (dGetD conf1 "APP_DIRS" (.bool false)) then
                    [Value.str DEFAULT_APP_LOADER]
                  else []))
            else loaders
          let wrapped := Value.tuple [.tuple [.str DEFAULT_CACHED_LOADER, loaders2]]
          let conf2 := dSet conf1 "OPTIONS" (.dict (dSet opts "loaders" wrapped))
          match dPop conf2 "APP_DIRS" with
          | some p => .ok p.2
          | Option.none => .error (.keyError "APP_DIRS")
        else .ok conf1
      | _ => .error (.typeError "OPTIONS")
    else .ok conf

/-- Iteration of use_cache_template_loader_in_production over the TEMPLATES
entries; a non-dict entry raises TypeError at the first subscript. -/
def wrapAllConfs (cached_backends : List String) : List Value → Except PyErr (List Value)
  | [] => .ok []
  | .dict d :: rest => do
    let d' ← wrapConfLoaders cached_backends d
    let r ← wrapAllConfs cached_backends rest
    .ok (.dict d' :: r)
  | _ :: _ => .error (.typeError "conf is not a dict")

/-- use_cache_template_loader_in_production (conf.py lines 294-318): no-op
when TEMPLATES is falsy or DEBUG is truthy, otherwise every configuration
with a cached backend gets its loaders wrapped with the cached loader. -/
def effCachedBackends (cached_backends : Option (List String)) : List String :=
  match cached_backends with
  | some l => if l.isEmpty then DEFAULT_CACHED_BACKENDS else l
  | Option.none => DEFAULT_CACHED_BACKENDS

def use_cache_template_loader_in_production (settings : PyModule)
    (cached_backends : Option (List String)) : Except PyErr PyModule :=
  let cb := effCachedBackends cached_backends
  let debug := dGetD settings.attrs "DEBUG" (.bool false)
  let templates := dGetD settings.attrs "TEMPLATES" Value.none
  if truthy templates = false ∨ truthy debug then .ok settings
  else
    match templates with
    | .list confs => do
      let confs' ← wrapAllConfs cb confs
      .ok (setAttrM settings "TEMPLATES" (.list confs'))
    | .tuple confs => do
      let confs' ← wrapAllConfs cb confs
      .ok (setAttrM settings "TEMPLATES" (.tuple confs'))
    | _ => .error (.typeError "TEMPLATES is not iterable")

/-! ## Context processors from apps (conf.py lines 78-106, 283-291) -/

/-- The contribution of one AppConfig to the processors mapping (conf.py
lines 87-97).  A string becomes a one-element tuple under the default
backend.  Any other truthy iterable — and a dict IS Iterable, so the
intended mapping form is caught here too — is wrapped whole under the
default backend; list.extend then iterates it, which for a mapping yields
its KEYS, not its processor lists. -/
def cpContribution : CPDecl → List (String × List String)
  | .none => []
  | .str s => if s = "" then [] else [(DEFAULT_TEMPLATE_BACKEND, [s])]
  | .iter l => if l.isEmpty then [] else [(DEFAULT_TEMPLATE_BACKEND, l)]
  | .dict m => if m.isEmpty then [] else [(DEFAULT_TEMPLATE_BACKEND, m.map Prod.fst)]

/-- defaultdict(list) with extend: append the processors to the list under
the backend, creating the entry at the end on first use (conf.py lines
84, 96-97). -/
def dextend : List (String × List String) → String → List String →
    List (String × List String)
  | [], b, cps => [(b, cps)]
  | (k, l) :: rest, b, cps =>
    if k = b then (k, l ++ cps) :: rest else (k, l) :: dextend rest b cps

/-- The processors mapping accumulated over the resolved AppConfigs
(conf.py lines 84-97). -/
def processorsOf (cfgs : List AppCfg) : List (String × List String) :=
  cfgs.foldl
    (fun acc c =>
      (cpContribution c.context_processors).foldl
        (fun a p => dextend a p.1 p.2) acc)
    []

/-- ensure_app_configs over a whole list, strictly (the generator is fully
consumed by the processors loop before any template is touched). -/
def resolveAll (env : AppEnv) : List Entry → Except PyErr (List AppCfg)
  | [] => .ok []
  | e :: rest =>
    match resolveEntry env e with
    | some c => (resolveAll env rest).map (c :: ·)
    | Option.none =>
      .error (.importError (match e with | .str s => s | .app c => c.name))

/-- The index the templates_map lookup resolves a backend name to: the dict
comprehension - OrderedDict((x.get('BACKEND'), x) for x in templates) - lets
a later configuration with the same backend overwrite an earlier one, so the
LAST configuration with that backend wins (conf.py lines 99-102). -/
def isBackendB (d : Dict) (b : String) : Bool :=
  match dGet d "BACKEND" with
  | some (.str t) => t == b
  | _ => false

def lastIdxBackend : List Dict → String → Option Nat
  | [], _ => Option.none
  | d :: rest, b =>
    match lastIdxBackend rest b with
    | some j => some (j + 1)
    | Option.none => if isBackendB d b then some 0 else Option.none

/-- Reading of an existing context_processors option as a list of strings;
processors are strings, and only string processors are modelled (a non-string
element would flow through unique unchanged but never occurs). -/
def strsOf : List Value → Option (List String)
  | [] => some []
  | .str s :: vs => (strsOf vs).map (s :: ·)
  | _ :: _ => Option.none

/-- The update a declared backend performs on its (last) matching template
configuration (conf.py lines 102-106): existing processors first, the new
ones appended, duplicates removed keeping the first occurrence. -/
def updateConfCps (conf : Dict) (cps : List String) : Except PyErr Dict :=
  let sd := dSetdefault conf "OPTIONS" (.dict [])
  match sd.1 with
  | .dict opts =>
    match strsOf (match dGetD opts "context_processors" (.tuple []) with
      | .tuple xs => xs
      | .list xs => xs
      | v => [v]) with
    | some old =>
      let newCps := pyUnique (old ++ cps)
      .ok (dSet sd.2 "OPTIONS"
        (.dict (dSet opts "context_processors" (.tuple (newCps.map .str)))))
    | Option.none => .error (.typeError "context_processors")
  | _ => .error (.typeError "OPTIONS")

/-- One entry of the processors mapping applied to the template list. -/
def applyBackendCps (templates : List Dict) (b : String) (cps : List String) :
    Except PyErr (List Dict) :=
  match lastIdxBackend templates b with
  | Option.none => .ok templates
  | some i =>
    match templates[i]? with
    | some conf => (updateConfCps conf cps).map (templates.set i ·)
    | Option.none => .ok templates

/-- add_required_context_processors (conf.py lines 78-106) with the default
option context_processors. -/
def add_required_context_processors (env : AppEnv) (templates : List Dict)
    (installed_apps : List Entry) : Except PyErr (List Dict) := do
  let cfgs ← resolveAll env installed_apps
  (processorsOf cfgs).foldlM (fun ts p => applyBackendCps ts p.1 p.2) templates

/-! ## The settings-level wrappers (conf.py lines 272-356) -/

/-- The INSTALLED_APPS value as a list of entries; AppConfig.create raises
on anything that is neither a string nor an AppConfig. -/
def valuesToEntries : List Value → Except PyErr (List Entry)
  | [] => .ok []
  | .str s :: rest => (valuesToEntries rest).map (Entry.str s :: ·)
  | .app c :: rest => (valuesToEntries rest).map (Entry.app c :: ·)
  | _ :: _ => .error (.typeError "not an application entry")

/-- The TEMPLATES value as a list of configuration dicts. -/
def valuesToConfs : List Value → Except PyErr (List Dict)
  | [] => .ok []
  | .dict d :: rest => (valuesToConfs rest).map (d :: ·)
  | _ :: _ => .error (.typeError "conf is not a dict")

/-- update_installed_apps (conf.py lines 272-280): expand a truthy
INSTALLED_APPS and store the resulting tuple of AppConfigs. -/
def update_installed_apps (env : AppEnv) (fuel : Nat) (settings : PyModule) :
    Except PyErr PyModule :=
  let installed := dGetD settings.attrs "INSTALLED_APPS" Value.none
  if truthy installed then
    match installed with
    | .list es => do
      let entries ← valuesToEntries es
      let cfgs ← expand_required_apps env fuel entries
      .ok (setAttrM settings "INSTALLED_APPS" (.tuple (cfgs.map Value.app)))
    | .tuple es => do
      let entries ← valuesToEntries es
      let cfgs ← expand_required_apps env fuel entries
      .ok (setAttrM settings "INSTALLED_APPS" (.tuple (cfgs.map Value.app)))
    | _ => .error (.typeError "INSTALLED_APPS is not iterable")
  else .ok settings

/-- update_context_processors_from_apps (conf.py lines 283-291): runs
add_required_context_processors when INSTALLED_APPS and TEMPLATES are both
truthy; the template dicts are mutated in place, modelled by rebuilding the
TEMPLATES value. -/
def update_context_processors_from_apps (env : AppEnv) (settings : PyModule) :
    Except PyErr PyModule :=
  let installed := dGetD settings.attrs "INSTALLED_APPS" Value.none
  let templates := dGetD settings.attrs "TEMPLATES" Value.none
  if truthy installed && truthy templates then
    match installed, templates with
    | .list es, .list cs => do
      let entries ← valuesToEntries es
      let confs ← valuesToConfs cs
      let confs' ← add_required_context_processors env confs entries
      .ok (setAttrM settings "TEMPLATES" (.list (confs'.map Value.dict)))
    | .tuple es, .list cs => do
      let entries ← valuesToEntries es
      let confs ← valuesToConfs cs
      let confs' ← add_required_context_processors env confs entries
      .ok (setAttrM settings "TEMPLATES" (.list (confs'.map Value.dict)))
    | _, _ => .error (.typeError "unsupported INSTALLED_APPS or TEMPLATES shape")
  else .ok settings

/-- update_settings_fixes (conf.py lines 347-356) with the default options. -/
def update_settings_fixes (env : AppEnv) (fuel : Nat) (settings : PyModule)
    (cached_backends : Option (List String)) : Except PyErr PyModule := do
  let s1 ← update_installed_apps env fuel settings
  let s2 ← update_context_processors_from_apps env s1
  use_cache_template_loader_in_production s2 cached_backends

/-- update_settings (conf.py lines 323-345).  SettingsDict.ensure(name) reads
sys.modules[name] (KeyError when absent); then the local-settings pass, the
secret-key pass and the environment pass run in order.  The call of
update_settings_fixes at line 341 passes the keyword argument
cached_backend=cached_backend (line 344); the name cached_backend is bound
nowhere in update_settings - the parameter is cached_backends - so
evaluating the argument raises NameError and the fixes never run. -/
def update_settings (w : World) (name : String)
    (local_settings_file : Option String) (secret_key_file : Option String)
    (env_pfx : Option String) (quiet : Bool) :
    Except PyErr (PyModule × List Warning × List (String × String)) := do
  let settings ← match lookupStr w.sysmodules name with
    | some m => Except.ok m
    | Option.none => Except.error (.keyError name)
  let r1 := update_settings_from_module w.modules settings
    (pyOrStr local_settings_file DEFAULT_LOCAL_SETTINGS_FILE) Option.none quiet
  let r2 ← update_secret_from_file w r1.1 secret_key_file Option.none true Option.none
  let _s3 := update_settings_from_environment w.environ w.jsonLoads r2.1 env_pfx
  .error (.nameError "cached_backend")

/-! ## C2, C3: the depth-first dependency expansion -/

mutual
/-- All AppConfigs structurally contained in an entry. -/
def entryCfgs : Entry → List AppCfg
  | .str _ => []
  | .app (.mk n req cp) => .mk n req cp :: entriesCfgs req

def entriesCfgs : List Entry → List AppCfg
  | [] => []
  | e :: rest => entryCfgs e ++ entriesCfgs rest
end

theorem entryCfgs_app (c : AppCfg) :
    entryCfgs (.app c) = c :: entriesCfgs c.required_apps := by
  obtain ⟨n, req, cp⟩ := c
  rfl

/-- All AppConfigs the importable-app environment can produce, with the
configs nested in their requirement lists. -/
def envCfgs : AppEnv → List AppCfg
  | [] => []
  | (_, c) :: rest => c :: entriesCfgs c.required_apps ++ envCfgs rest

/-- Acyclicity of the required_apps relation, witnessed by a rank function
that strictly decreases along every requirement edge of the configs in R. -/
def RankDecreases (env : AppEnv) (rank : String → Nat) (R : List AppCfg) : Prop :=
  ∀ c ∈ R, ∀ e ∈ c.required_apps, ∀ r, resolveEntry env e = some r →
    rank r.name < rank c.name

/-- Every requirement of every element of the list resolves, and its name
appears among the names of the elements placed earlier in the list. -/
def DepsEarlierL (env : AppEnv) (out : List AppCfg) : Prop :=
  ∀ (i : Nat) (hi : i < out.length), ∀ e ∈ (out.get ⟨i, hi⟩).required_apps,
    ∃ r, resolveEntry env e = some r ∧ r.name ∈ cfgNames (out.take i)

theorem cfgNames_append (a b : List AppCfg) :
    cfgNames (a ++ b) = cfgNames a ++ cfgNames b := List.map_append _ _ _

theorem lookupEnv_mem_envCfgs (env : AppEnv) (s : String) (c : AppCfg)
    (h : lookupEnv env s = some c) :
    c ∈ envCfgs env ∧ ∀ x ∈ entriesCfgs c.required_apps, x ∈ envCfgs env := by
  induction env with
  | nil => cases h
  | cons p rest ih =>
    obtain ⟨k, v⟩ := p
    by_cases hk : k = s
    · simp only [lookupEnv, if_pos hk, Option.some.injEq] at h
      subst h
      refine ⟨List.mem_cons_self _ _, fun x hx => ?_⟩
      exact List.mem_cons_of_mem _ (List.mem_append_left _ hx)
    · simp only [lookupEnv, if_neg hk] at h
      obtain ⟨h1, h2⟩ := ih h
      exact ⟨List.mem_cons_of_mem _ (List.mem_append_right _ h1),
        fun x hx => List.mem_cons_of_mem _ (List.mem_append_right _ (h2 x hx))⟩

theorem resolveEntry_mem_R (env : AppEnv) (R : List AppCfg)
    (HC : ∀ x ∈ envCfgs env, x ∈ R) (e : Entry)
    (hcl : ∀ x ∈ entryCfgs e, x ∈ R) (c : AppCfg)
    (h : resolveEntry env e = some c) :
    c ∈ R ∧ ∀ x ∈ entriesCfgs c.required_apps, x ∈ R := by
  cases e with
  | str s =>
    obtain ⟨h1, h2⟩ := lookupEnv_mem_envCfgs env s c h
    exact ⟨HC c h1, fun x hx => HC x (h2 x hx)⟩
  | app c0 =>
    simp only [resolveEntry, Option.some.injEq] at h
    subst h
    constructor
    · exact hcl c0 (by rw [entryCfgs_app]; exact List.mem_cons_self _ _)
    · intro x hx
      exact hcl x (by rw [entryCfgs_app]; exact List.mem_cons_of_mem _ hx)

theorem take_append_le {α : Type} (n : Nat) (l₁ l₂ : List α) (h : n ≤ l₁.length) :
    (l₁ ++ l₂).take n = l₁.take n := by
  rw [List.take_append_eq_append_take, Nat.sub_eq_zero_of_le h, List.take_zero,
    List.append_nil]

theorem nodup_append_one {α : Type} (l : List α) (a : α) (h : l.Nodup)
    (ha : a ∉ l) : (l ++ [a]).Nodup := by
  simp [List.nodup_append, h, ha]

theorem depsEarlier_append (env : AppEnv) (l : List AppCfg) (c : AppCfg)
    (hl : DepsEarlierL env l)
    (hc : ∀ e ∈ c.required_apps,
      ∃ r, resolveEntry env e = some r ∧ r.name ∈ cfgNames l) :
    DepsEarlierL env (l ++ [c]) := by
  intro i hi e he
  have hlen : i < l.length + 1 := by simpa using hi
  rcases Nat.lt_or_ge i l.length with h | h
  · have hg : (l ++ [c]).get ⟨i, hi⟩ = l.get ⟨i, h⟩ := by
      simp only [List.get_eq_getElem]
      exact List.getElem_append_left h
    rw [hg] at he
    obtain ⟨r, hr, hmem⟩ := hl i h e he
    refine ⟨r, hr, ?_⟩
    rwa [take_append_le i l [c] (Nat.le_of_lt h)]
  · have hieq : i = l.length := by omega
    subst hieq
    have hg : (l ++ [c]).get ⟨l.length, hi⟩ = c := by
      simp only [List.get_eq_getElem]
      rw [List.getElem_append_right (Nat.le_refl _)]
      simp
    rw [hg] at he
    obtain ⟨r, hr, hmem⟩ := hc e he
    refine ⟨r, hr, ?_⟩
    rwa [List.take_left]

/-- The unconditional structural facts about populate: visited only grows,
the expanded list only grows at the back with previously unvisited names,
the names of the expanded configs stay inside visited, and they stay
duplicate-free. -/
theorem populate_nodup_spec (env : AppEnv) : ∀ fuel : Nat,
    (∀ (vis : List String) (exp : List AppCfg) (apps : List Entry)
       (vis' : List String) (exp' : List AppCfg),
       (∀ n ∈ cfgNames exp, n ∈ vis) → (cfgNames exp).Nodup →
       populateList env fuel vis exp apps = .ok (vis', exp') →
       (∀ n ∈ cfgNames exp', n ∈ vis') ∧ (cfgNames exp').Nodup ∧
         (∀ n ∈ vis, n ∈ vis') ∧
         ∃ E, exp' = exp ++ E ∧ ∀ n ∈ cfgNames E, n ∉ vis) ∧
    (∀ (vis : List String) (exp : List AppCfg) (e : Entry)
       (vis' : List String) (exp' : List AppCfg),
       (∀ n ∈ cfgNames exp, n ∈ vis) → (cfgNames exp).Nodup →
       populateEntry env fuel vis exp e = .ok (vis', exp') →
       (∀ n ∈ cfgNames exp', n ∈ vis') ∧ (cfgNames exp').Nodup ∧
         (∀ n ∈ vis, n ∈ vis') ∧
         ∃ E, exp' = exp ++ E ∧ ∀ n ∈ cfgNames E, n ∉ vis) := by
  intro fuel
  induction fuel with
  | zero =>
    constructor
    · intro vis exp apps vis' exp' _ _ h
      simp [populateList] at h
    · intro vis exp e vis' exp' _ _ h
      simp [populateEntry] at h
  | succ f ih =>
    obtain ⟨ihL, ihE⟩ := ih
    constructor
    · intro vis exp apps vis' exp' hsub hnd hrun
      cases apps with
      | nil =>
        simp only [populateList, Except.ok.injEq, Prod.mk.injEq] at hrun
        obtain ⟨rfl, rfl⟩ := hrun
        exact ⟨hsub, hnd, fun n hn => hn, [], by simp, by simp [cfgNames]⟩
      | cons e rest =>
        simp only [populateList] at hrun
        cases he : populateEntry env f vis exp e with
        | error err => rw [he] at hrun; simp [bind, Except.bind] at hrun
        | ok p =>
          obtain ⟨v1, x1⟩ := p
          rw [he] at hrun
          simp only [bind, Except.bind] at hrun
          obtain ⟨hs1, hn1, hv1, E1, hE1, hE1v⟩ := ihE vis exp e v1 x1 hsub hnd he
          obtain ⟨hs2, hn2, hv2, E2, hE2, hE2v⟩ := ihL v1 x1 rest vis' exp' hs1 hn1 hrun
          refine ⟨hs2, hn2, fun n hn => hv2 n (hv1 n hn),
            E1 ++ E2, by rw [hE2, hE1, List.append_assoc], ?_⟩
          intro n hn
          rw [cfgNames_append] at hn
          rcases List.mem_append.mp hn with hn | hn
          · exact hE1v n hn
          · exact fun hc => hE2v n hn (hv1 n hc)
    · intro vis exp e vis' exp' hsub hnd hrun
      simp only [populateEntry] at hrun
      cases hr : resolveEntry env e with
      | none => rw [hr] at hrun; simp at hrun
      | some c =>
        rw [hr] at hrun
        simp only at hrun
        by_cases hv : c.name ∈ vis
        · rw [if_pos hv] at hrun
          simp only [Except.ok.injEq, Prod.mk.injEq] at hrun
          obtain ⟨rfl, rfl⟩ := hrun
          exact ⟨hsub, hnd, fun n hn => hn, [], by simp, by simp [cfgNames]⟩
        · rw [if_neg hv] at hrun
          have hcn : c.name ∉ cfgNames exp := fun hc => hv (hsub _ hc)
          by_cases hq : c.required_apps.isEmpty
          · rw [if_pos hq] at hrun
            simp only [Except.ok.injEq, Prod.mk.injEq] at hrun
            obtain ⟨rfl, rfl⟩ := hrun
            refine ⟨?_, ?_, fun n hn => List.mem_cons_of_mem _ hn, [c], rfl, ?_⟩
            · intro n hn
              rw [cfgNames_append] at hn
              rcases List.mem_append.mp hn with hn | hn
              · exact List.mem_cons_of_mem _ (hsub n hn)
              · simp only [cfgNames, List.map_cons, List.map_nil,
                  List.mem_singleton] at hn
                subst hn; exact List.mem_cons_self _ _
            · rw [cfgNames_append]
              exact nodup_append_one _ _ hnd (by simpa [cfgNames] using hcn)
            · intro n hn
              simp only [cfgNames, List.map_cons, List.map_nil,
                List.mem_singleton] at hn
              subst hn; exact hv
          · rw [if_neg hq] at hrun
            cases hrec : populateList env f (c.name :: vis) exp c.required_apps with
            | error err => rw [hrec] at hrun; simp [bind, Except.bind] at hrun
            | ok p =>
              obtain ⟨v2, x2⟩ := p
              rw [hrec] at hrun
              simp only [bind, Except.bind, Except.ok.injEq, Prod.mk.injEq] at hrun
              obtain ⟨rfl, rfl⟩ := hrun
              have hsub1 : ∀ n ∈ cfgNames exp, n ∈ c.name :: vis :=
                fun n hn => List.mem_cons_of_mem _ (hsub n hn)
              obtain ⟨hs2, hn2, hv2, E2, hE2, hE2v⟩ :=
                ihL (c.name :: vis) exp c.required_apps v2 x2 hsub1 hnd hrec
              have hcx2 : c.name ∉ cfgNames x2 := by
                rw [hE2, cfgNames_append]
                intro hc
                rcases List.mem_append.mp hc with hc | hc
                · exact hcn hc
                · exact hE2v _ hc (List.mem_cons_self _ _)
              refine ⟨?_, ?_, ?_, E2 ++ [c], by rw [hE2, List.append_assoc], ?_⟩
              · intro n hn
                rw [cfgNames_append] at hn
                rcases List.mem_append.mp hn with hn | hn
                · exact hs2 n hn
                · simp only [cfgNames, List.map_cons, List.map_nil,
                    List.mem_singleton] at hn
                  subst hn
                  exact hv2 _ (List.mem_cons_self _ _)
              · rw [cfgNames_append]
                exact nodup_append_one _ _ hn2 hcx2
              · exact fun n hn => hv2 n (List.mem_cons_of_mem _ hn)
              · intro n hn
                rw [cfgNames_append] at hn
                rcases List.mem_append.mp hn with hn | hn
                · exact fun hc => hE2v n hn (List.mem_cons_of_mem _ hc)
                · simp only [cfgNames, List.map_cons, List.map_nil,
                    List.mem_singleton] at hn
                  subst hn; exact hv

/-- The invariant of the populate traversal: visited is exactly the names of
the expanded configs together with the names still on the recursion stack
(S), the expanded names are duplicate-free, and every expanded config has
its requirements placed earlier. -/
structure PopInv (env : AppEnv) (S vis : List String) (exp : List AppCfg) : Prop where
  mem_iff : ∀ n, n ∈ vis ↔ (n ∈ cfgNames exp ∨ n ∈ S)
  nodup : (cfgNames exp).Nodup
  deps : DepsEarlierL env exp

/-- What one populate step guarantees: the invariant is preserved, the
expansion grows at the back by previously unvisited names, and visited
grows. -/
structure PopStep (env : AppEnv) (S vis : List String) (exp : List AppCfg)
    (vis' : List String) (exp' : List AppCfg) : Prop where
  inv : PopInv env S vis' exp'
  grow : ∃ E, exp' = exp ++ E ∧ ∀ n ∈ cfgNames E, n ∉ vis
  visSub : ∀ n ∈ vis, n ∈ vis'

/-- The rank-indexed specification of populate: under an acyclicity rank on
the relevant configs, a successful run preserves the invariant, and every
processed entry ends up expanded (its resolved name appears among the
expanded names). -/
theorem populate_rank_spec (env : AppEnv) (R : List AppCfg) (rank : String → Nat)
    (HR : RankDecreases env rank R) (HC : ∀ x ∈ envCfgs env, x ∈ R) :
    ∀ fuel : Nat,
    (∀ (S : List String) (b : Nat) (vis : List String) (exp : List AppCfg)
       (apps : List Entry) (vis' : List String) (exp' : List AppCfg),
       PopInv env S vis exp →
       (∀ n ∈ S, b ≤ rank n) →
       (∀ x ∈ entriesCfgs apps, x ∈ R) →
       (∀ e ∈ apps, ∀ r, resolveEntry env e = some r → rank r.name < b) →
       populateList env fuel vis exp apps = .ok (vis', exp') →
       PopStep env S vis exp vis' exp' ∧
         ∀ e ∈ apps, ∃ r, resolveEntry env e = some r ∧ r.name ∈ cfgNames exp') ∧
    (∀ (S : List String) (b : Nat) (vis : List String) (exp : List AppCfg)
       (e : Entry) (vis' : List String) (exp' : List AppCfg),
       PopInv env S vis exp →
       (∀ n ∈ S, b ≤ rank n) →
       (∀ x ∈ entryCfgs e, x ∈ R) →
       (∀ r, resolveEntry env e = some r → rank r.name < b) →
       populateEntry env fuel vis exp e = .ok (vis', exp') →
       PopStep env S vis exp vis' exp' ∧
         ∃ r, resolveEntry env e = some r ∧ r.name ∈ cfgNames exp') := by
  intro fuel
  induction fuel with
  | zero =>
    constructor
    · intro S b vis exp apps vis' exp' _ _ _ _ h
      simp [populateList] at h
    · intro S b vis exp e vis' exp' _ _ _ _ h
      simp [populateEntry] at h
  | succ f ih =>
    obtain ⟨ihL, ihE⟩ := ih
    constructor
    · intro S b vis exp apps vis' exp' hinv hS hcl hb hrun
      cases apps with
      | nil =>
        simp only [populateList, Except.ok.injEq, Prod.mk.injEq] at hrun
        obtain ⟨rfl, rfl⟩ := hrun
        exact ⟨⟨hinv, ⟨[], by simp, by simp [cfgNames]⟩, fun n hn => hn⟩,
          by simp⟩
      | cons e rest =>
        simp only [populateList] at hrun
        cases he : populateEntry env f vis exp e with
        | error err => rw [he] at hrun; simp [bind, Except.bind] at hrun
        | ok p =>
          obtain ⟨v1, x1⟩ := p
          rw [he] at hrun
          simp only [bind, Except.bind] at hrun
          have hclE : ∀ x ∈ entryCfgs e, x ∈ R := fun x hx =>
            hcl x (by simp only [entriesCfgs]; exact List.mem_append_left _ hx)
          have hclR : ∀ x ∈ entriesCfgs rest, x ∈ R := fun x hx =>
            hcl x (by simp only [entriesCfgs]; exact List.mem_append_right _ hx)
          obtain ⟨step1, hres1⟩ := ihE S b vis exp e v1 x1 hinv hS hclE
            (hb e (List.mem_cons_self _ _)) he
          obtain ⟨step2, hres2⟩ := ihL S b v1 x1 rest vis' exp' step1.inv hS hclR
            (fun e2 he2 => hb e2 (List.mem_cons_of_mem _ he2)) hrun
          obtain ⟨E1, hE1, hE1v⟩ := step1.grow
          obtain ⟨E2, hE2, hE2v⟩ := step2.grow
          refine ⟨⟨step2.inv,
            ⟨E1 ++ E2, by rw [hE2, hE1, List.append_assoc], ?_⟩,
            fun n hn => step2.visSub n (step1.visSub n hn)⟩, ?_⟩
          · intro n hn
            rw [cfgNames_append] at hn
            rcases List.mem_append.mp hn with hn | hn
            · exact hE1v n hn
            · exact fun hc => hE2v n hn (step1.visSub n hc)
          · intro e2 he2
            rcases List.mem_cons.mp he2 with rfl | he2
            · obtain ⟨r, hr, hmem⟩ := hres1
              refine ⟨r, hr, ?_⟩
              rw [hE2, cfgNames_append]
              exact List.mem_append_left _ hmem
            · exact hres2 e2 he2
    · intro S b vis exp e vis' exp' hinv hS hcl hb hrun
      simp only [populateEntry] at hrun
      cases hr : resolveEntry env e with
      | none => rw [hr] at hrun; simp at hrun
      | some c =>
        rw [hr] at hrun
        simp only at hrun
        obtain ⟨hcR, hcreq⟩ := resolveEntry_mem_R env R HC e hcl c hr
        by_cases hv : c.name ∈ vis
        · rw [if_pos hv] at hrun
          simp only [Except.ok.injEq, Prod.mk.injEq] at hrun
          obtain ⟨rfl, rfl⟩ := hrun
          refine ⟨⟨hinv, ⟨[], by simp, by simp [cfgNames]⟩, fun n hn => hn⟩,
            c, rfl, ?_⟩
          rcases (hinv.mem_iff c.name).mp hv with hm | hm
          · exact hm
          · exact absurd (hb c hr) (Nat.not_lt_of_ge (hS _ hm))
        · rw [if_neg hv] at hrun
          have hcn : c.name ∉ cfgNames exp := fun hc =>
            hv ((hinv.mem_iff c.name).mpr (Or.inl hc))
          by_cases hq : c.required_apps.isEmpty
          · rw [if_pos hq] at hrun
            simp only [Except.ok.injEq, Prod.mk.injEq] at hrun
            obtain ⟨rfl, rfl⟩ := hrun
            have hreq : c.required_apps = [] := List.isEmpty_iff.mp hq
            refine ⟨⟨⟨?_, ?_, ?_⟩, ⟨[c], rfl, ?_⟩,
              fun n hn => List.mem_cons_of_mem _ hn⟩, c, rfl, ?_⟩
            · intro n
              rw [cfgNames_append]
              constructor
              · intro hn
                rcases List.mem_cons.mp hn with rfl | hn
                · exact Or.inl (List.mem_append_right _ (by simp [cfgNames]))
                · rcases (hinv.mem_iff n).mp hn with hm | hm
                  · exact Or.inl (List.mem_append_left _ hm)
                  · exact Or.inr hm
              · intro hn
                rcases hn with hn | hn
                · rcases List.mem_append.mp hn with hn | hn
                  · exact List.mem_cons_of_mem _ ((hinv.mem_iff n).mpr (Or.inl hn))
                  · simp only [cfgNames, List.map_cons, List.map_nil,
                      List.mem_singleton] at hn
                    subst hn; exact List.mem_cons_self _ _
                · exact List.mem_cons_of_mem _ ((hinv.mem_iff n).mpr (Or.inr hn))
            · rw [cfgNames_append]
              exact nodup_append_one _ _ hinv.nodup (by simpa [cfgNames] using hcn)
            · exact depsEarlier_append env exp c hinv.deps
                (by rw [hreq]; intro e2 he2; cases he2)
            · intro n hn
              simp only [cfgNames, List.map_cons, List.map_nil,
                List.mem_singleton] at hn
              subst hn; exact hv
            · rw [cfgNames_append]
              exact List.mem_append_right _ (by simp [cfgNames])
          · rw [if_neg hq] at hrun
            cases hrec : populateList env f (c.name :: vis) exp c.required_apps with
            | error err => rw [hrec] at hrun; simp [bind, Except.bind] at hrun
            | ok p =>
              obtain ⟨v2, x2⟩ := p
              rw [hrec] at hrun
              simp only [bind, Except.bind, Except.ok.injEq, Prod.mk.injEq] at hrun
              obtain ⟨rfl, rfl⟩ := hrun
              have hinv1 : PopInv env (c.name :: S) (c.name :: vis) exp := by
                refine ⟨?_, hinv.nodup, hinv.deps⟩
                intro n
                constructor
                · intro hn
                  rcases List.mem_cons.mp hn with rfl | hn
                  · exact Or.inr (List.mem_cons_self _ _)
                  · rcases (hinv.mem_iff n).mp hn with hm | hm
                    · exact Or.inl hm
                    · exact Or.inr (List.mem_cons_of_mem _ hm)
                · intro hn
                  rcases hn with hn | hn
                  · exact List.mem_cons_of_mem _ ((hinv.mem_iff n).mpr (Or.inl hn))
                  · rcases List.mem_cons.mp hn with rfl | hn
                    · exact List.mem_cons_self _ _
                    · exact List.mem_cons_of_mem _ ((hinv.mem_iff n).mpr (Or.inr hn))
              have hS1 : ∀ n ∈ c.name :: S, rank c.name ≤ rank n := by
                intro n hn
                rcases List.mem_cons.mp hn with rfl | hn
                · exact Nat.le_refl _
                · exact Nat.le_of_lt (Nat.lt_of_lt_of_le (hb c hr) (hS n hn))
              have hb1 : ∀ e2 ∈ c.required_apps, ∀ r2,
                  resolveEntry env e2 = some r2 → rank r2.name < rank c.name :=
                fun e2 he2 r2 hr2 => HR c hcR e2 he2 r2 hr2
              obtain ⟨step2, hres2⟩ := ihL (c.name :: S) (rank c.name)
                (c.name :: vis) exp c.required_apps v2 x2 hinv1 hS1 hcreq hb1 hrec
              obtain ⟨E2, hE2, hE2v⟩ := step2.grow
              have hcx2 : c.name ∉ cfgNames x2 := by
                rw [hE2, cfgNames_append]
                intro hc
                rcases List.mem_append.mp hc with hc | hc
                · exact hcn hc
                · exact hE2v _ hc (List.mem_cons_self _ _)
              refine ⟨⟨⟨?_, ?_, ?_⟩,
                ⟨E2 ++ [c], by rw [hE2, List.append_assoc], ?_⟩, ?_⟩, c, rfl, ?_⟩
              · intro n
                rw [cfgNames_append]
                constructor
                · intro hn
                  rcases (step2.inv.mem_iff n).mp hn with hm | hm
                  · exact Or.inl (List.mem_append_left _ hm)
                  · rcases List.mem_cons.mp hm with rfl | hm
                    · exact Or.inl (List.mem_append_right _ (by simp [cfgNames]))
                    · exact Or.inr hm
                · intro hn
                  rcases hn with hn | hn
                  · rcases List.mem_append.mp hn with hn | hn
                    · exact (step2.inv.mem_iff n).mpr (Or.inl hn)
                    · simp only [cfgNames, List.map_cons, List.map_nil,
                        List.mem_singleton] at hn
                      subst hn
                      exact step2.visSub _ (List.mem_cons_self _ _)
                  · exact (step2.inv.mem_iff n).mpr
                      (Or.inr (List.mem_cons_of_mem _ hn))
              · rw [cfgNames_append]
                exact nodup_append_one _ _ step2.inv.nodup hcx2
              · exact depsEarlier_append env x2 c step2.inv.deps hres2
              · intro n hn
                rw [cfgNames_append] at hn
                rcases List.mem_append.mp hn with hn | hn
                · exact fun hc => hE2v n hn (List.mem_cons_of_mem _ hc)
                · simp only [cfgNames, List.map_cons, List.map_nil,
                    List.mem_singleton] at hn
                  subst hn; exact hv
              · exact fun n hn => step2.visSub n (List.mem_cons_of_mem _ hn)
              · rw [cfgNames_append]
                exact List.mem_append_right _ (by simp [cfgNames])

theorem le_foldr_max (l : List Nat) (x : Nat) (h : x ∈ l) : x ≤ l.foldr max 0 := by
  induction l with
  | nil => cases h
  | cons a t ih =>
    rcases List.mem_cons.mp h with rfl | h
    · exact Nat.le_max_left _ _
    · exact Nat.le_trans (ih h) (Nat.le_max_right _ _)

theorem mem_entriesCfgs_of_mem (apps : List Entry) (e : Entry) (x : AppCfg)
    (he : e ∈ apps) (hx : x ∈ entryCfgs e) : x ∈ entriesCfgs apps := by
  induction apps with
  | nil => cases he
  | cons a rest ih =>
    simp only [entriesCfgs]
    rcases List.mem_cons.mp he with rfl | he
    · exact List.mem_append_left _ hx
    · exact List.mem_append_right _ (ih he)

theorem expand_run (env : AppEnv) (fuel : Nat) (apps : List Entry)
    (out : List AppCfg) (h : expand_required_apps env fuel apps = .ok out) :
    ∃ vis, populateList env fuel [] [] apps = .ok (vis, out) := by
  unfold expand_required_apps at h
  cases hp : populateList env fuel [] [] apps with
  | error e => rw [hp] at h; simp [Except.map] at h
  | ok p =>
    rw [hp] at h
    obtain ⟨v, x⟩ := p
    simp only [Except.map, Except.ok.injEq] at h
    exact ⟨v, by rw [h]⟩

/-- The two halves of the depth-first-unique property, derived once: the
expanded names are duplicate-free, and under an acyclicity rank every
expanded config has its (resolved) requirements placed strictly earlier. -/
theorem expand_ok_props (env : AppEnv) (fuel : Nat) (installed_apps : List Entry)
    (out : List AppCfg)
    (h : expand_required_apps env fuel installed_apps = .ok out) :
    (cfgNames out).Nodup ∧
    (∀ (R : List AppCfg) (rank : String → Nat),
      RankDecreases env rank R →
      (∀ x ∈ envCfgs env, x ∈ R) →
      (∀ x ∈ entriesCfgs installed_apps, x ∈ R) →
      DepsEarlierL env out) := by
  obtain ⟨vis, hrun⟩ := expand_run env fuel installed_apps out h
  constructor
  · exact ((populate_nodup_spec env fuel).1 [] [] installed_apps vis out
      (by intro n hn; simp [cfgNames] at hn) (by simp [cfgNames]) hrun).2.1
  · intro R rank HR HC HI
    have hinv : PopInv env [] [] [] := by
      refine ⟨?_, by simp [cfgNames], ?_⟩
      · intro n; simp [cfgNames]
      · intro i hi; simp at hi
    have hb : ∀ e ∈ installed_apps, ∀ r, resolveEntry env e = some r →
        rank r.name < (R.map (fun c => rank c.name)).foldr max 0 + 1 := by
      intro e he r hr
      have hcl : ∀ x ∈ entryCfgs e, x ∈ R :=
        fun x hx => HI x (mem_entriesCfgs_of_mem installed_apps e x he hx)
      have hrR : r ∈ R := (resolveEntry_mem_R env R HC e hcl r hr).1
      have : rank r.name ≤ (R.map (fun c => rank c.name)).foldr max 0 :=
        le_foldr_max _ _ (List.mem_map_of_mem _ hrR)
      omega
    exact (((populate_rank_spec env R rank HR HC fuel).1 [] _ [] [] installed_apps
      vis out hinv (by intro n hn; cases hn) HI hb hrun).1).inv.deps

/-- C3: each application name appears at most once in the output of
expand_required_apps, and, when the required_apps relation is acyclic
(witnessed by a rank function decreasing along every requirement edge of
the relevant configs), every application listed in an entry's required_apps
attribute appears earlier in the output than that entry. -/
theorem expand_required_apps_depth_first_unique
    (env : AppEnv) (fuel : Nat) (installed_apps : List Entry)
    (out : List AppCfg)
    (h : expand_required_apps env fuel installed_apps = .ok out) :
    (cfgNames out).Nodup ∧
    (∀ (R : List AppCfg) (rank : String → Nat),
      RankDecreases env rank R →
      (∀ x ∈ envCfgs env, x ∈ R) →
      (∀ x ∈ entriesCfgs installed_apps, x ∈ R) →
      DepsEarlierL env out) :=
  expand_ok_props env fuel installed_apps out h

/-- A directed two-app example used by the witnesses: app a requires app b. -/
def exCfgB : AppCfg := .mk "b" [] .none

def exCfgA : AppCfg := .mk "a" [.str "b"] .none

def exEnv : AppEnv := [("a", exCfgA), ("b", exCfgB)]

/-- Witness for C3 at the concrete two-app world: the expansion of
[str a] is [b, a]; its names are duplicate-free and requirements appear
earlier. -/
theorem expand_required_apps_depth_first_unique_witness :
    (cfgNames [exCfgB, exCfgA]).Nodup ∧ DepsEarlierL exEnv [exCfgB, exCfgA] := by
  have h := expand_required_apps_depth_first_unique exEnv 10 [.str "a"]
    [exCfgB, exCfgA] rfl
  refine ⟨h.1, h.2 [exCfgA, exCfgB] (fun s => if s = "a" then 1 else 0) ?_ ?_ ?_⟩
  · intro c hc e he r hr
    rcases List.mem_cons.mp hc with rfl | hc
    · have he2 : e = Entry.str "b" := by
        simpa [exCfgA, AppCfg.required_apps] using he
      subst he2
      rw [show resolveEntry exEnv (Entry.str "b") = some exCfgB from rfl] at hr
      cases hr
      decide
    · rcases List.mem_cons.mp hc with rfl | hc
      · simp [exCfgB, AppCfg.required_apps] at he
      · cases hc
  · intro x hx
    rwa [show envCfgs exEnv = [exCfgA, exCfgB] from rfl] at hx
  · intro x hx
    rw [show entriesCfgs [Entry.str "a"] = [] from rfl] at hx
    cases hx

/-! ## C2: idempotence of the expansion -/

/-- C2 counterexample: with two importable apps that require each other, the
expansion of [str a] lists b before a, but re-expanding that output lists a
before b: the application-name sequences of the first and second run differ,
so expansion is not idempotent on every installed-apps list. -/
theorem expand_required_apps_cycle_not_idempotent :
    (expand_required_apps
        [("a", AppCfg.mk "a" [.str "b"] .none), ("b", AppCfg.mk "b" [.str "a"] .none)]
        10 [.str "a"]).map cfgNames = .ok ["b", "a"] ∧
    (expand_required_apps
        [("a", AppCfg.mk "a" [.str "b"] .none), ("b", AppCfg.mk "b" [.str "a"] .none)]
        10 ([AppCfg.mk "b" [.str "a"] .none, AppCfg.mk "a" [.str "b"] .none].map
          Entry.app)).map cfgNames = .ok ["a", "b"] ∧
    (["a", "b"] : List String) ≠ ["b", "a"] :=
  ⟨rfl, rfl, by decide⟩

/-- Fuel that certainly suffices to re-run the expansion on its own output. -/
def replayFuel : List AppCfg → Nat
  | [] => 1
  | c :: rest => c.required_apps.length + 3 + replayFuel rest

theorem replay_skip (env : AppEnv) : ∀ (reqs : List Entry) (vis : List String)
    (exp : List AppCfg),
    (∀ e ∈ reqs, ∃ r, resolveEntry env e = some r ∧ r.name ∈ vis) →
    ∀ f, reqs.length + 1 ≤ f →
    populateList env f vis exp reqs = .ok (vis, exp) := by
  intro reqs
  induction reqs with
  | nil =>
    intro vis exp _ f hf
    cases f with
    | zero => omega
    | succ f => rfl
  | cons e rest ih =>
    intro vis exp h f hf
    cases f with
    | zero => omega
    | succ f =>
      obtain ⟨r, hr, hv⟩ := h e (List.mem_cons_self _ _)
      have hE : populateEntry env f vis exp e = .ok (vis, exp) := by
        cases f with
        | zero => simp only [List.length_cons] at hf; omega
        | succ f2 =>
          simp only [populateEntry, hr, if_pos hv]
      simp only [populateList, hE, bind, Except.bind]
      exact ih vis exp (fun e2 he2 => h e2 (List.mem_cons_of_mem _ he2)) f
        (by simp only [List.length_cons] at hf; omega)

theorem replay_entry (env : AppEnv) (c : AppCfg) (vis : List String)
    (exp : List AppCfg) (hnv : c.name ∉ vis)
    (hreq : ∀ e ∈ c.required_apps, ∃ r, resolveEntry env e = some r ∧ r.name ∈ vis) :
    ∀ f, c.required_apps.length + 2 ≤ f →
    populateEntry env f vis exp (.app c) = .ok (c.name :: vis, exp ++ [c]) := by
  intro f hf
  cases f with
  | zero => omega
  | succ f1 =>
    by_cases hq : c.required_apps.isEmpty
    · simp only [populateEntry, resolveEntry, if_neg hnv, if_pos hq]
    · have hskip := replay_skip env c.required_apps (c.name :: vis) exp
        (fun e he => by
          obtain ⟨r, hr, hv⟩ := hreq e he
          exact ⟨r, hr, List.mem_cons_of_mem _ hv⟩) f1 (by omega)
      simp only [populateEntry, resolveEntry, if_neg hnv, if_neg hq, hskip,
        bind, Except.bind]

theorem replay_run (env : AppEnv) : ∀ (suf pre : List AppCfg) (vis : List String),
    (∀ n, n ∈ vis ↔ n ∈ cfgNames pre) →
    (cfgNames (pre ++ suf)).Nodup →
    DepsEarlierL env (pre ++ suf) →
    ∀ f, replayFuel suf ≤ f →
    ∃ vis2, populateList env f vis pre (suf.map Entry.app) = .ok (vis2, pre ++ suf) := by
  intro suf
  induction suf with
  | nil =>
    intro pre vis _ _ _ f hf
    cases f with
    | zero => simp [replayFuel] at hf
    | succ f => exact ⟨vis, by simp only [List.map_nil, List.append_nil]; rfl⟩
  | cons c rest ih =>
    intro pre vis hvis hnd hdeps f hf
    simp only [replayFuel] at hf
    cases f with
    | zero => omega
    | succ f1 =>
      have hnames : cfgNames (pre ++ c :: rest)
          = cfgNames pre ++ c.name :: cfgNames rest := by
        rw [cfgNames_append]; rfl
      have hcpre : c.name ∉ cfgNames pre := by
        rw [hnames] at hnd
        have hdisj := (List.nodup_append.mp hnd).2.2
        exact fun hc => hdisj hc (List.mem_cons_self _ _)
      have hnv : c.name ∉ vis := fun hc => hcpre ((hvis c.name).mp hc)
      have hlen : pre.length < (pre ++ c :: rest).length := by
        simp
      have hget : (pre ++ c :: rest).get ⟨pre.length, hlen⟩ = c := by
        simp only [List.get_eq_getElem]
        rw [List.getElem_append_right (Nat.le_refl _)]
        simp
      have hreq : ∀ e ∈ c.required_apps,
          ∃ r, resolveEntry env e = some r ∧ r.name ∈ vis := by
        intro e he
        obtain ⟨r, hr, hmem⟩ := hdeps pre.length hlen e (by rw [hget]; exact he)
        refine ⟨r, hr, (hvis r.name).mpr ?_⟩
        rwa [List.take_left] at hmem
      have hE := replay_entry env c vis pre hnv hreq f1 (by omega)
      have hassoc : (pre ++ [c]) ++ rest = pre ++ c :: rest := by
        rw [List.append_assoc]; rfl
      have hvis1 : ∀ n, n ∈ c.name :: vis ↔ n ∈ cfgNames (pre ++ [c]) := by
        intro n
        rw [cfgNames_append]
        constructor
        · intro hn
          rcases List.mem_cons.mp hn with rfl | hn
          · exact List.mem_append_right _ (by simp [cfgNames])
          · exact List.mem_append_left _ ((hvis n).mp hn)
        · intro hn
          rcases List.mem_append.mp hn with hn | hn
          · exact List.mem_cons_of_mem _ ((hvis n).mpr hn)
          · simp only [cfgNames, List.map_cons, List.map_nil,
              List.mem_singleton] at hn
            subst hn; exact List.mem_cons_self _ _
      obtain ⟨vis2, hrun2⟩ := ih (pre ++ [c]) (c.name :: vis) hvis1
        (by rw [hassoc]; exact hnd) (by rw [hassoc]; exact hdeps) f1 (by omega)
      refine ⟨vis2, ?_⟩
      simp only [List.map_cons, populateList, hE, bind, Except.bind]
      rw [hrun2, hassoc]

/-- C2 amended: when the required_apps relation over the relevant configs is
acyclic (a rank decreases along every requirement edge), re-applying
expand_required_apps to the output of a successful expansion reproduces
exactly the same tuple of configs - in particular the same application
names in the same order - given a recursion budget sufficient for the
second run. -/
theorem expand_required_apps_idempotent_of_acyclic
    (env : AppEnv) (fuel fuel2 : Nat) (installed_apps : List Entry)
    (out : List AppCfg) (R : List AppCfg) (rank : String → Nat)
    (HR : RankDecreases env rank R) (HC : ∀ x ∈ envCfgs env, x ∈ R)
    (HI : ∀ x ∈ entriesCfgs installed_apps, x ∈ R)
    (h : expand_required_apps env fuel installed_apps = .ok out)
    (hf2 : replayFuel out ≤ fuel2) :
    expand_required_apps env fuel2 (out.map Entry.app) = .ok out := by
  have hprops := expand_ok_props env fuel installed_apps out h
  have hnd : (cfgNames ([] ++ out)).Nodup := by simpa using hprops.1
  have hdeps : DepsEarlierL env ([] ++ out) := by
    have := hprops.2 R rank HR HC HI
    simpa using this
  obtain ⟨vis2, hrun2⟩ := replay_run env out [] []
    (by intro n; simp [cfgNames]) hnd hdeps fuel2 hf2
  unfold expand_required_apps
  rw [show ([] : List AppCfg) ++ out = out from rfl] at hrun2
  rw [hrun2]
  rfl

/-- Witness for C2 amended at the concrete two-app world: re-expanding the
output [b, a] of the first run reproduces [b, a]. -/
theorem expand_required_apps_idempotent_witness :
    expand_required_apps exEnv (replayFuel [exCfgB, exCfgA])
        ([exCfgB, exCfgA].map Entry.app) = .ok [exCfgB, exCfgA] := by
  apply expand_required_apps_idempotent_of_acyclic exEnv 10 _ [.str "a"]
    [exCfgB, exCfgA] [exCfgA, exCfgB] (fun s => if s = "a" then 1 else 0)
  · intro c hc e he r hr
    rcases List.mem_cons.mp hc with rfl | hc
    · have he2 : e = Entry.str "b" := by
        simpa [exCfgA, AppCfg.required_apps] using he
      subst he2
      rw [show resolveEntry exEnv (Entry.str "b") = some exCfgB from rfl] at hr
      cases hr
      decide
    · rcases List.mem_cons.mp hc with rfl | hc
      · simp [exCfgB, AppCfg.required_apps] at he
      · cases hc
  · intro x hx
    rwa [show envCfgs exEnv = [exCfgA, exCfgB] from rfl] at hx
  · intro x hx
    rw [show entriesCfgs [Entry.str "a"] = [] from rfl] at hx
    cases hx
  · rfl
  · exact Nat.le_refl _

theorem splitLinesChar_append_line (xs rest : List Char) (h : '\n' ∉ xs) :
    splitLinesChar (xs ++ '\n' :: rest) = xs :: splitLinesChar rest := by
  induction xs with
  | nil => simp [splitLinesChar]
  | cons c cs ih =>
    have hc : ¬ (c = '\n') := fun he => h (he ▸ List.mem_cons_self c cs)
    have hcs : '\n' ∉ cs := fun hm => h (List.mem_cons_of_mem _ hm)
    simp only [List.cons_append, splitLinesChar, if_neg hc]
    rw [show cs.append ('\n' :: rest) = cs ++ '\n' :: rest from rfl, ih hcs]

/-- C4 counterexample: the claim says the generated secret-key file is one
line of the form setting = quoted key.  The written content actually starts
with a five-line docstring header: at a concrete setting and key the file
has six lines, and its text differs from the claimed single line. -/
theorem secret_key_file_not_single_line :
    (splitLinesChar (create_secret_key_file_content "SECRET_KEY" "k3y").data).length = 6 ∧
    create_secret_key_file_content "SECRET_KEY" "k3y"
      ≠ "SECRET_KEY = " ++ apos ++ "k3y" ++ apos ++ "\n" := by
  constructor
  · rfl
  · decide

/-- C4 amended: create_secret_key_file performs exactly one write, of the
given filename, whose content is the fixed four-line docstring (five lines
of text counting both triple-quote lines) followed by one final line
setting = quoted key; the returned key is the generated one. -/
theorem secret_key_file_layout (generatedKey filename setting : String)
    (hk : '\n' ∉ generatedKey.data) (hs : '\n' ∉ setting.data) :
    create_secret_key_file generatedKey true filename (some setting) =
      .ok (generatedKey, (filename,
        create_secret_key_file_content (pyOrStr (some setting) "SECRET_KEY") generatedKey)) ∧
    splitLinesChar (create_secret_key_file_content setting generatedKey).data =
      ["\"\"\"".data,
       "Automatically generated file.".data,
       "This needs to be unique and SECRET. It is also installation specific.".data,
       "This file should be included from settings.py".data,
       "\"\"\"".data,
       (setting ++ " = " ++ apos ++ generatedKey ++ apos).data] := by
  constructor
  · rfl
  · have hline : '\n' ∉ (setting ++ " = " ++ apos ++ generatedKey ++ apos).data := by
      simp only [String.data_append]
      intro hm
      rcases List.mem_append.mp hm with hm | hm
      · rcases List.mem_append.mp hm with hm | hm
        · rcases List.mem_append.mp hm with hm | hm
          · rcases List.mem_append.mp hm with hm | hm
            · exact hs hm
            · simp at hm
          · simp [apos, String.singleton] at hm
        · exact hk hm
      · simp [apos, String.singleton] at hm
    have hsplit : (create_secret_key_file_content setting generatedKey).data =
        "\"\"\"".data ++ '\n' ::
        ("Automatically generated file.".data ++ '\n' ::
        ("This needs to be unique and SECRET. It is also installation specific.".data ++ '\n' ::
        ("This file should be included from settings.py".data ++ '\n' ::
        ("\"\"\"".data ++ '\n' ::
        ((setting ++ " = " ++ apos ++ generatedKey ++ apos).data ++ '\n' :: []))))) := by
      simp [create_secret_key_file_content, secretFileHeader, String.data_append,
        apos, String.singleton]
    rw [hsplit]
    rw [splitLinesChar_append_line _ _ (by decide)]
    rw [splitLinesChar_append_line _ _ (by decide)]
    rw [splitLinesChar_append_line _ _ (by decide)]
    rw [splitLinesChar_append_line _ _ (by decide)]
    rw [splitLinesChar_append_line _ _ (by decide)]
    rw [splitLinesChar_append_line _ _ hline]
    rfl

/-- Witness for C4 amended at a concrete key and setting name. -/
theorem secret_key_file_layout_witness :
    create_secret_key_file "k3y" true "proj/secret_key.py" (some "SECRET_KEY") =
      .ok ("k3y", ("proj/secret_key.py",
        create_secret_key_file_content "SECRET_KEY" "k3y")) ∧
    splitLinesChar (create_secret_key_file_content "SECRET_KEY" "k3y").data =
      ["\"\"\"".data,
       "Automatically generated file.".data,
       "This needs to be unique and SECRET. It is also installation specific.".data,
       "This file should be included from settings.py".data,
       "\"\"\"".data,
       ("SECRET_KEY" ++ " = " ++ apos ++ "k3y" ++ apos).data] := by
  have h := secret_key_file_layout "k3y" "proj/secret_key.py" "SECRET_KEY"
    (by decide) (by decide)
  exact ⟨h.1, h.2⟩

/-! ## Dictionary and attribute lemmas -/

theorem dGet_dSet (d : Dict) (k a : String) (v : Value) :
    dGet (dSet d k v) a = if k = a then some v else dGet d a := by
  induction d with
  | nil => by_cases h : k = a <;> simp [dSet, dGet, h]
  | cons kv rest ih =>
    obtain ⟨k0, v0⟩ := kv
    by_cases h0 : k0 = k
    · subst h0
      by_cases h1 : k0 = a <;> simp [dSet, dGet, h1]
    · by_cases h1 : k0 = a
      · have hka : ¬ (k = a) := fun h => h0 (h1.trans h.symm)
        simp only [dSet, if_neg h0, dGet, if_pos h1, if_neg hka]
      · simp [dSet, dGet, h0, h1, ih]

theorem getAttrM_setAttrM (m : PyModule) (k a : String) (v : Value) :
    getAttrM (setAttrM m k v) a = if k = a then some v else getAttrM m a := by
  simp [getAttrM, setAttrM, dGet_dSet]

theorem lookupStr_eq_none {α : Type} (l : List (String × α)) (k : String)
    (h : k ∉ l.map Prod.fst) : lookupStr l k = Option.none := by
  induction l with
  | nil => rfl
  | cons kv rest ih =>
    obtain ⟨k0, v0⟩ := kv
    simp only [List.map_cons, List.mem_cons] at h
    push_neg at h
    simp only [lookupStr,
      if_neg (show ¬ (k0 = k) from fun he => h.1 he.symm)]
    exact ih h.2

theorem getAttrM_settingsUpdate (data : List (String × Value)) (m : PyModule)
    (k : String) (hnd : (data.map Prod.fst).Nodup) :
    getAttrM (settingsUpdate m data) k =
      match lookupStr data k with
      | some v => some v
      | Option.none => getAttrM m k := by
  induction data generalizing m with
  | nil => simp [settingsUpdate, lookupStr]
  | cons kv rest ih =>
    obtain ⟨k0, v0⟩ := kv
    simp only [List.map_cons, List.nodup_cons] at hnd
    have hrest := ih (setAttrM m k0 v0) hnd.2
    simp only [settingsUpdate, List.foldl_cons] at hrest ⊢
    rw [hrest]
    by_cases hk : k0 = k
    · subst hk
      rw [lookupStr_eq_none rest k0 hnd.1]
      simp [lookupStr, getAttrM_setAttrM]
    · simp only [lookupStr, if_neg hk]
      cases lookupStr rest k with
      | none => simp [getAttrM_setAttrM, hk]
      | some v => simp

/-! ## C1: update_settings never completes -/

/-- C1: the claim says update_settings performs all the merge passes and the
three fixes, completing without raising an exception.  The code refutes it:
line 344 of conf.py passes the keyword argument cached_backend=cached_backend
to update_settings_fixes, and the name cached_backend is bound nowhere in
update_settings (the parameter and local are both called cached_backends), so
every call raises NameError there (or fails even earlier); no call of
update_settings ever returns normally. -/
theorem update_settings_always_raises (w : World) (name : String)
    (local_settings_file secret_key_file env_pfx : Option String) (quiet : Bool) :
    (update_settings w name local_settings_file secret_key_file env_pfx quiet).isOk
      = false := by
  unfold update_settings
  cases hs : lookupStr w.sysmodules name with
  | none => rfl
  | some m =>
    simp only [bind, Except.bind]
    cases update_secret_from_file w
      (update_settings_from_module w.modules m
        (pyOrStr local_settings_file DEFAULT_LOCAL_SETTINGS_FILE) Option.none quiet).1
      secret_key_file Option.none true Option.none <;> rfl

/-! ## C7: a missing local-settings module warns and continues -/

/-- C7: when find_and_import_module finds no module for the requested name,
update_settings_from_module leaves the settings namespace unchanged, returns
0, and emits (unless quiet) one warning naming the module and the tried
module paths, instead of raising. -/
theorem update_settings_from_module_missing_spec
    (modules : List (String × PyModule)) (settings : PyModule)
    (module_name : String) (search_base : Option String) (quiet : Bool)
    (tried : List String)
    (h : find_and_import_module modules module_name
          (effSearchBase settings search_base) = (Option.none, tried)) :
    update_settings_from_module modules settings module_name search_base quiet =
      (settings, 0, if quiet then [] else [.couldNotFind module_name tried]) := by
  unfold update_settings_from_module
  rw [h]

/-! ## C6: copying exactly the uppercase names of the found module -/

theorem mem_pyUniqueAux {α : Type} [DecidableEq α] (seen l : List α) (x : α) :
    x ∈ pyUniqueAux seen l ↔ x ∈ l ∧ x ∉ seen := by
  induction l generalizing seen with
  | nil => simp [pyUniqueAux]
  | cons y ys ih =>
    simp only [pyUniqueAux]
    by_cases hy : y ∈ seen
    · rw [if_pos hy, ih seen]
      constructor
      · rintro ⟨h1, h2⟩
        exact ⟨List.mem_cons_of_mem _ h1, h2⟩
      · rintro ⟨h1, h2⟩
        rcases List.mem_cons.mp h1 with rfl | h1
        · exact absurd hy h2
        · exact ⟨h1, h2⟩
    · rw [if_neg hy]
      constructor
      · intro hmem
        rcases List.mem_cons.mp hmem with rfl | hmem
        · exact ⟨List.mem_cons_self _ _, hy⟩
        · obtain ⟨h1, h2⟩ := (ih (y :: seen)).mp hmem
          exact ⟨List.mem_cons_of_mem _ h1,
            fun hc => h2 (List.mem_cons_of_mem _ hc)⟩
      · rintro ⟨h1, h2⟩
        rcases List.mem_cons.mp h1 with rfl | h1
        · exact List.mem_cons_self _ _
        · by_cases hxy : x = y
          · subst hxy; exact List.mem_cons_self _ _
          · refine List.mem_cons_of_mem _ ((ih (y :: seen)).mpr ⟨h1, fun hc => ?_⟩)
            rcases List.mem_cons.mp hc with h | h
            · exact hxy h
            · exact h2 h

theorem mem_pyUnique {α : Type} [DecidableEq α] (l : List α) (x : α) :
    x ∈ pyUnique l ↔ x ∈ l := by
  simp [pyUnique, mem_pyUniqueAux]

theorem nodup_pyUniqueAux {α : Type} [DecidableEq α] (seen l : List α) :
    (pyUniqueAux seen l).Nodup := by
  induction l generalizing seen with
  | nil => simp [pyUniqueAux]
  | cons y ys ih =>
    by_cases hy : y ∈ seen
    · simpa [pyUniqueAux, if_pos hy] using ih seen
    · simp only [pyUniqueAux, if_neg hy, List.nodup_cons]
      refine ⟨fun hc => ?_, ih (y :: seen)⟩
      exact ((mem_pyUniqueAux (y :: seen) ys y).mp hc).2 (List.mem_cons_self y seen)

theorem nodup_pyUnique {α : Type} [DecidableEq α] (l : List α) :
    (pyUnique l).Nodup := nodup_pyUniqueAux [] l

theorem dGet_isSome_of_mem_keys (d : Dict) (k : String) (h : k ∈ dKeys d) :
    ∃ v, dGet d k = some v := by
  induction d with
  | nil => simp [dKeys] at h
  | cons kv rest ih =>
    obtain ⟨k0, v0⟩ := kv
    by_cases hk : k0 = k
    · exact ⟨v0, by simp [dGet, hk]⟩
    · simp only [dKeys, List.map_cons, List.mem_cons] at h
      rcases h with h | h
      · exact absurd h.symm hk
      · simpa [dGet, hk] using ih h

theorem map_fst_map_pair {α : Type} (f : String → α) (l : List String) :
    (l.map (fun k => (k, f k))).map Prod.fst = l := by
  induction l with
  | nil => rfl
  | cons a t ih => simp [ih]

theorem lookupStr_map_pair {α : Type} (l : List String) (f : String → α) (k : String)
    (h : k ∈ l) : lookupStr (l.map (fun x => (x, f x))) k = some (f k) := by
  induction l with
  | nil => simp at h
  | cons y ys ih =>
    by_cases hy : y = k
    · subst hy; simp [lookupStr]
    · rcases List.mem_cons.mp h with hk | hk
      · exact absurd hk.symm hy
      · simpa [lookupStr, hy] using ih hk

/-- C6: when the local-settings module is found, update_settings_from_module
copies into the settings namespace exactly the attributes of the found
module with all-uppercase names, returns how many it copied (with no
warning), and leaves every other attribute of the settings namespace
unchanged. -/
theorem update_settings_from_module_found_spec
    (modules : List (String × PyModule)) (settings : PyModule)
    (module_name : String) (search_base : Option String) (quiet : Bool)
    (m : PyModule) (t : List String)
    (h : find_and_import_module modules module_name
          (effSearchBase settings search_base) = (some m, t)) :
    (update_settings_from_module modules settings module_name search_base quiet).2.1 =
        ((pyDir m).filter pyIsUpper).length ∧
    (update_settings_from_module modules settings module_name search_base quiet).2.2 = [] ∧
    (∀ k, k ∈ (pyDir m).filter pyIsUpper →
      getAttrM (update_settings_from_module modules settings module_name search_base quiet).1 k
        = getAttrM m k) ∧
    (∀ k, k ∉ (pyDir m).filter pyIsUpper →
      getAttrM (update_settings_from_module modules settings module_name search_base quiet).1 k
        = getAttrM settings k) := by
  unfold update_settings_from_module
  rw [h]
  have hnd : (((pyDir m).filter pyIsUpper).map
      (fun k => (k, (getAttrM m k).getD Value.none))).map Prod.fst =
      (pyDir m).filter pyIsUpper :=
    map_fst_map_pair _ _
  have hndup : ((pyDir m).filter pyIsUpper).Nodup :=
    (nodup_pyUnique (dKeys m.attrs)).filter _
  refine ⟨by simp, rfl, ?_, ?_⟩
  · intro k hk
    have hlook := lookupStr_map_pair ((pyDir m).filter pyIsUpper)
      (fun x => (getAttrM m x).getD Value.none) k hk
    have hmem : k ∈ dKeys m.attrs := by
      have : k ∈ pyDir m := List.mem_of_mem_filter hk
      exact (mem_pyUnique (dKeys m.attrs) k).mp this
    obtain ⟨v, hv⟩ := dGet_isSome_of_mem_keys m.attrs k hmem
    have := getAttrM_settingsUpdate
      (((pyDir m).filter pyIsUpper).map (fun x => (x, (getAttrM m x).getD Value.none)))
      settings k (by rw [hnd]; exact hndup)
    simp only [this, hlook]
    simp [getAttrM] at hv ⊢
    simp [hv]
  · intro k hk
    have hlook : lookupStr (((pyDir m).filter pyIsUpper).map
        (fun x => (x, (getAttrM m x).getD Value.none))) k = Option.none := by
      apply lookupStr_eq_none
      rw [hnd]; exact hk
    have := getAttrM_settingsUpdate
      (((pyDir m).filter pyIsUpper).map (fun x => (x, (getAttrM m x).getD Value.none)))
      settings k (by rw [hnd]; exact hndup)
    simp only [this, hlook]

/-- Witness for C6: a found local-settings module with one uppercase and one
lowercase attribute; the uppercase one is copied (count 1), the lowercase one
is not, and an unrelated setting survives. -/
theorem update_settings_from_module_found_witness :
    find_and_import_module
        [("proj.local_settings", ⟨"proj.local_settings", [("FOO", .int 1), ("bar", .int 2)]⟩)]
        "local_settings"
        (effSearchBase ⟨"proj.settings", [("FOO", .int 0), ("KEEP", .str "x")]⟩ Option.none)
      = (some ⟨"proj.local_settings", [("FOO", .int 1), ("bar", .int 2)]⟩, []) ∧
    (update_settings_from_module
        [("proj.local_settings", ⟨"proj.local_settings", [("FOO", .int 1), ("bar", .int 2)]⟩)]
        ⟨"proj.settings", [("FOO", .int 0), ("KEEP", .str "x")]⟩
        "local_settings" Option.none false).2.1 = 1 ∧
    getAttrM (update_settings_from_module
        [("proj.local_settings", ⟨"proj.local_settings", [("FOO", .int 1), ("bar", .int 2)]⟩)]
        ⟨"proj.settings", [("FOO", .int 0), ("KEEP", .str "x")]⟩
        "local_settings" Option.none false).1 "FOO" = some (.int 1) ∧
    getAttrM (update_settings_from_module
        [("proj.local_settings", ⟨"proj.local_settings", [("FOO", .int 1), ("bar", .int 2)]⟩)]
        ⟨"proj.settings", [("FOO", .int 0), ("KEEP", .str "x")]⟩
        "local_settings" Option.none false).1 "KEEP" = some (.str "x") := by
  have h := update_settings_from_module_found_spec
    [("proj.local_settings", ⟨"proj.local_settings", [("FOO", .int 1), ("bar", .int 2)]⟩)]
    ⟨"proj.settings", [("FOO", .int 0), ("KEEP", .str "x")]⟩
    "local_settings" Option.none false
    ⟨"proj.local_settings", [("FOO", .int 1), ("bar", .int 2)]⟩ [] rfl
  refine ⟨rfl, ?_, ?_, ?_⟩
  · rw [h.1]; rfl
  · rw [h.2.2.1 "FOO" (by decide)]; rfl
  · rw [h.2.2.2 "KEEP" (by decide)]; rfl

/-! ## C9: the environment pass never touches DJANGO_SETTINGS_MODULE -/

theorem pyKey_inj (k1 k2 p : String)
    (h1 : pyStartsWith k1 p = true) (h2 : pyStartsWith k2 p = true)
    (hd : pyDrop k1 p.data.length = pyDrop k2 p.data.length) : k1 = k2 := by
  unfold pyStartsWith at h1 h2
  unfold pyDrop at hd
  have e1 : k1.data.take p.data.length = p.data := of_decide_eq_true h1
  have e2 : k2.data.take p.data.length = p.data := of_decide_eq_true h2
  have hdd : k1.data.drop p.data.length = k2.data.drop p.data.length :=
    congrArg String.data hd
  have hde : k1.data = k2.data := by
    conv_lhs => rw [← List.take_append_drop p.data.length k1.data]
    conv_rhs => rw [← List.take_append_drop p.data.length k2.data]
    rw [e1, e2, hdd]
  cases k1; cases k2
  exact congrArg String.mk (by simpa using hde)

theorem getAttrM_foldl_setAttr (keys : List String) (attr : String → String)
    (val : String → Value) (a : String) (s : PyModule)
    (h : ∀ k ∈ keys, attr k ≠ a) :
    getAttrM (keys.foldl (fun s key => setAttrM s (attr key) (val key)) s) a
      = getAttrM s a := by
  induction keys generalizing s with
  | nil => rfl
  | cons k ks ih =>
    simp only [List.foldl_cons]
    rw [ih _ (fun x hx => h x (List.mem_cons_of_mem _ hx))]
    rw [getAttrM_setAttrM, if_neg (h k (List.mem_cons_self _ _))]

/-- C9: for every environment and prefix argument, the key
DJANGO_SETTINGS_MODULE is excluded from the processed keys of
update_settings_from_environment, and consequently (when the prefix is a
prefix of that key, so that a corresponding setting name exists) the
corresponding attribute of the settings namespace is left unchanged. -/
theorem environment_pass_preserves_settings_module_key
    (environ : List (String × String)) (jsonLoads : String → Option Value)
    (settings : PyModule) (env_pfx : Option String)
    (hnd : (environ.map Prod.fst).Nodup) :
    "DJANGO_SETTINGS_MODULE" ∉ envProcessedKeys environ (effEnvPfx env_pfx) ∧
    (pyStartsWith "DJANGO_SETTINGS_MODULE" (effEnvPfx env_pfx) = true →
      getAttrM (update_settings_from_environment environ jsonLoads settings env_pfx)
          (pyDrop "DJANGO_SETTINGS_MODULE" (effEnvPfx env_pfx).data.length)
        = getAttrM settings
          (pyDrop "DJANGO_SETTINGS_MODULE" (effEnvPfx env_pfx).data.length)) := by
  have hfil : ((environ.map Prod.fst).filter
      (fun k => pyStartsWith k (effEnvPfx env_pfx))).Nodup := hnd.filter _
  constructor
  · exact hfil.not_mem_erase
  · intro hsw
    have hkeys : ∀ k ∈ envProcessedKeys environ (effEnvPfx env_pfx),
        pyDrop k (effEnvPfx env_pfx).data.length
          ≠ pyDrop "DJANGO_SETTINGS_MODULE" (effEnvPfx env_pfx).data.length := by
      intro k hk heq
      have hk2 := hfil.mem_erase_iff.mp hk
      have hkf := List.mem_filter.mp hk2.2
      exact hk2.1 (pyKey_inj k "DJANGO_SETTINGS_MODULE" (effEnvPfx env_pfx)
        hkf.2 hsw heq)
    unfold update_settings_from_environment
    exact getAttrM_foldl_setAttr (envProcessedKeys environ (effEnvPfx env_pfx))
      (fun key => pyDrop key (effEnvPfx env_pfx).data.length)
      (fun key => match jsonLoads ((lookupStr environ key).getD "") with
        | some j => j
        | Option.none => .str ((lookupStr environ key).getD ""))
      _ settings hkeys

/-- Witness for C9: a concrete environment carrying both DJANGO_DEBUG and
DJANGO_SETTINGS_MODULE; the pass leaves settings.SETTINGS_MODULE untouched. -/
theorem environment_pass_preserves_settings_module_key_witness :
    "DJANGO_SETTINGS_MODULE" ∉
      envProcessedKeys [("DJANGO_DEBUG", "true"), ("DJANGO_SETTINGS_MODULE", "proj.settings")]
        (effEnvPfx Option.none) ∧
    getAttrM (update_settings_from_environment
        [("DJANGO_DEBUG", "true"), ("DJANGO_SETTINGS_MODULE", "proj.settings")]
        (fun _ => Option.none)
        ⟨"proj.settings", [("SETTINGS_MODULE", .str "orig")]⟩ Option.none)
        "SETTINGS_MODULE"
      = some (.str "orig") := by
  have h := environment_pass_preserves_settings_module_key
    [("DJANGO_DEBUG", "true"), ("DJANGO_SETTINGS_MODULE", "proj.settings")]
    (fun _ => Option.none)
    ⟨"proj.settings", [("SETTINGS_MODULE", .str "orig")]⟩ Option.none
    (by decide)
  refine ⟨h.1, ?_⟩
  have h2 := h.2 (by decide)
  have he : pyDrop "DJANGO_SETTINGS_MODULE" (effEnvPfx Option.none).data.length
      = "SETTINGS_MODULE" := by decide
  rw [he] at h2
  rw [h2]
  rfl

/-- Witness for C7 at a concrete world: no module named local_settings is
importable, so the pass returns 0, keeps the settings module intact and
warns with both tried paths. -/
theorem update_settings_from_module_missing_witness :
    update_settings_from_module [] ⟨"proj.settings", [("DEBUG", .bool true)]⟩
        "local_settings" Option.none false =
      (⟨"proj.settings", [("DEBUG", .bool true)]⟩, 0,
        [.couldNotFind "local_settings" ["proj.local_settings", "local_settings"]]) := by
  exact update_settings_from_module_missing_spec [] ⟨"proj.settings", [("DEBUG", .bool true)]⟩
    "local_settings" Option.none false ["proj.local_settings", "local_settings"] rfl


/-! ## C5, C10: the cached template loader in production -/

theorem dGet_dPop_ne (d : Dict) (k a : String) (v : Value) (d2 : Dict)
    (h : dPop d k = some (v, d2)) (hne : k ≠ a) : dGet d2 a = dGet d a := by
  induction d generalizing d2 with
  | nil => cases h
  | cons kv rest ih =>
    obtain ⟨k0, v0⟩ := kv
    by_cases hk : k0 = k
    · subst hk
      simp only [dPop, if_pos rfl, Option.some.injEq, Prod.mk.injEq] at h
      obtain ⟨rfl, rfl⟩ := h
      have hka : ¬ (k0 = a) := fun he => hne (he ▸ rfl)
      simp [dGet, hka]
    · simp only [dPop, if_neg hk] at h
      cases hpop : dPop rest k with
      | none => rw [hpop] at h; cases h
      | some q =>
        obtain ⟨v1, r1⟩ := q
        rw [hpop] at h
        simp only [Option.map, Option.some.injEq, Prod.mk.injEq] at h
        obtain ⟨rfl, rfl⟩ := h
        by_cases ha : k0 = a
        · simp [dGet, ha]
        · simp only [dGet, if_neg ha]
          exact ih r1 hpop

theorem fst_dSetdefault (d : Dict) (key : String) (dflt : Value) :
    (dSetdefault d key dflt).1 = dGetD d key dflt := by
  unfold dSetdefault dGetD
  cases dGet d key <;> rfl

theorem dGet_append_single (d : Dict) (key a : String) (dflt : Value)
    (hne : key ≠ a) : dGet (d ++ [(key, dflt)]) a = dGet d a := by
  induction d with
  | nil => simp [dGet, fun h => hne h]
  | cons kv rest ih =>
    obtain ⟨k0, v0⟩ := kv
    by_cases hk : k0 = a
    · simp [dGet, hk]
    · simp only [List.cons_append, dGet, if_neg hk]
      exact ih

theorem dGet_dSetdefault_other (d : Dict) (key a : String) (dflt : Value)
    (hne : key ≠ a) : dGet (dSetdefault d key dflt).2 a = dGet d a := by
  unfold dSetdefault
  cases hg : dGet d key with
  | none => exact dGet_append_single d key a dflt hne
  | some v => rfl

theorem dSetdefault_of_present (d : Dict) (key : String) (dflt v : Value)
    (h : dGet d key = some v) : dSetdefault d key dflt = (v, d) := by
  unfold dSetdefault
  rw [h]

/-- The OPTIONS dict of a template configuration as the code reads it
(conf.setdefault with an empty dict default). -/
def optsOf (d : Dict) : Dict :=
  match dGetD d "OPTIONS" (.dict []) with
  | .dict o => o
  | _ => []

/-- The loaders the claim says get nested inside the cached entry: the
previously configured ones when truthy, otherwise the filesystem loader
plus, when APP_DIRS was true, the app-directories loader. -/
def prevLoaders (d : Dict) : Value :=
  let loaders := dGetD (optsOf d) "loaders" Value.none
  if truthy loaders then loaders
  else Value.tuple (Value.str DEFAULT_LOADER ::
    (if truthy (dGetD d "APP_DIRS" (.bool false)) then [Value.str DEFAULT_APP_LOADER]
     else []))

/-- The wrapped loaders value the claim describes. -/
def wrappedLoadersOf (d : Dict) : Value :=
  Value.tuple [.tuple [.str DEFAULT_CACHED_LOADER, prevLoaders d]]

/-- The per-configuration postcondition the claim states for a cached
backend: the cached loader is among the flattened loaders afterwards, and
when it was not already there, the new loaders are exactly the previous
(or default) loaders nested inside one cached-loader entry. -/
def WrappedConfPost (cb : List String) (d d2 : Dict) : Prop :=
  (match dGet d "BACKEND" with | some (.str b) => b ∈ cb | _ => False) →
    (∃ flat2, flatten_loaders (dGetD (optsOf d2) "loaders" Value.none) = .ok flat2 ∧
       DEFAULT_CACHED_LOADER ∈ flat2) ∧
    (∀ flat, flatten_loaders (dGetD (optsOf d) "loaders" Value.none) = .ok flat →
       DEFAULT_CACHED_LOADER ∉ flat →
       dGet (optsOf d2) "loaders" = some (wrappedLoadersOf d))

theorem cached_mem_flatten_wrapped (inner : Value) :
    ∃ flat2, flatten_loaders
        (Value.tuple [.tuple [.str DEFAULT_CACHED_LOADER, inner]]) = .ok flat2 ∧
      DEFAULT_CACHED_LOADER ∈ flat2 := by
  refine ⟨_, rfl, ?_⟩
  show DEFAULT_CACHED_LOADER ∈
    flattenElems [Value.tuple [Value.str DEFAULT_CACHED_LOADER, inner]]
  simp [flattenElems]

theorem wrapConfLoaders_spec (cb : List String) (d d2 : Dict)
    (h : wrapConfLoaders cb d = .ok d2) : WrappedConfPost cb d d2 := by
  intro hBcb
  cases hB : dGet d "BACKEND" with
  | none => rw [hB] at hBcb; exact hBcb.elim
  | some bv =>
    rw [hB] at hBcb
    unfold wrapConfLoaders at h
    rw [hB] at h
    cases bv with
    | str b =>
      have hcont : (cb.contains b) = true := by
        simpa [List.elem_eq_mem] using hBcb
      simp only [hcont, if_true] at h
      rw [fst_dSetdefault] at h
      cases hOpt : dGetD d "OPTIONS" (.dict []) with
      | dict opts =>
        rw [hOpt] at h
        simp only [bind, Except.bind] at h
        have hopts : optsOf d = opts := by unfold optsOf; rw [hOpt]
        split at h
        · cases h
        · rename_i flat hfl
          split at h
          · rename_i hcond
            split at h
            · rename_i p hpop
              obtain ⟨pv, prest⟩ := p
              cases h
              have hO2 : dGet prest "OPTIONS" =
                  some (Value.dict (dSet opts "loaders"
                    (Value.tuple [.tuple [.str DEFAULT_CACHED_LOADER,
                      if truthy (dGetD opts "loaders" Value.none) = false then
                        Value.tuple (Value.str DEFAULT_LOADER ::
                          if truthy (dGetD (dSetdefault d "OPTIONS" (Value.dict [])).2
                              "APP_DIRS" (Value.bool false)) = true then
                            [Value.str DEFAULT_APP_LOADER]
                          else [])
                      else dGetD opts "loaders" Value.none]]))) := by
                rw [dGet_dPop_ne _ _ _ _ _ hpop (by decide)]
                rw [dGet_dSet]
                simp
              have hopts2 : optsOf prest = dSet opts "loaders"
                  (Value.tuple [.tuple [.str DEFAULT_CACHED_LOADER,
                    if truthy (dGetD opts "loaders" Value.none) = false then
                      Value.tuple (Value.str DEFAULT_LOADER ::
                        if truthy (dGetD (dSetdefault d "OPTIONS" (Value.dict [])).2
                            "APP_DIRS" (Value.bool false)) = true then
                          [Value.str DEFAULT_APP_LOADER]
                        else [])
                    else dGetD opts "loaders" Value.none]]) := by
                unfold optsOf dGetD
                rw [hO2]
                rfl
              have hload2 : dGetD (optsOf prest) "loaders" Value.none =
                  Value.tuple [.tuple [.str DEFAULT_CACHED_LOADER,
                    if truthy (dGetD opts "loaders" Value.none) = false then
                      Value.tuple (Value.str DEFAULT_LOADER ::
                        if truthy (dGetD (dSetdefault d "OPTIONS" (Value.dict [])).2
                            "APP_DIRS" (Value.bool false)) = true then
                          [Value.str DEFAULT_APP_LOADER]
                        else [])
                    else dGetD opts "loaders" Value.none]] := by
                rw [hopts2]
                unfold dGetD
                rw [dGet_dSet]
                simp
              have hAD : dGetD (dSetdefault d "OPTIONS" (Value.dict [])).2
                  "APP_DIRS" (Value.bool false)
                  = dGetD d "APP_DIRS" (Value.bool false) := by
                unfold dGetD
                rw [dGet_dSetdefault_other d "OPTIONS" "APP_DIRS" _ (by decide)]
              have hinner : (if truthy (dGetD opts "loaders" Value.none) = false then
                    Value.tuple (Value.str DEFAULT_LOADER ::
                      if truthy (dGetD (dSetdefault d "OPTIONS" (Value.dict [])).2
                          "APP_DIRS" (Value.bool false)) = true then
                        [Value.str DEFAULT_APP_LOADER]
                      else [])
                  else dGetD opts "loaders" Value.none) = prevLoaders d := by
                unfold prevLoaders
                rw [hopts, hAD]
                by_cases htr : truthy (dGetD opts "loaders" Value.none) = true
                · simp [htr]
                · have hfalse : truthy (dGetD opts "loaders" Value.none) = false := by
                    simpa using htr
                  simp [hfalse]
              constructor
              · rw [hload2]
                exact cached_mem_flatten_wrapped _
              · intro flat2 hfl2 hnot2
                rw [hopts2, dGet_dSet, if_pos rfl]
                unfold wrappedLoadersOf
                rw [hinner]
            · cases h
          · rename_i hcond
            rcases not_or.mp hcond with ⟨h1, h2⟩
            have htr : truthy (dGetD opts "loaders" Value.none) = true := by
              cases htt : truthy (dGetD opts "loaders" Value.none)
              · exact absurd htt h1
              · rfl
            have hmem : DEFAULT_CACHED_LOADER ∈ flat := not_not.mp h2
            cases hgo : dGet d "OPTIONS" with
            | none =>
              exfalso
              have hoe : opts = [] := by
                unfold dGetD at hOpt
                rw [hgo] at hOpt
                simpa using hOpt.symm
              subst hoe
              simp [dGetD, dGet, truthy] at htr
            | some v =>
              rw [dSetdefault_of_present d "OPTIONS" _ v hgo] at h
              cases h
              constructor
              · exact ⟨flat, by rw [hopts]; exact hfl, hmem⟩
              · intro flat2 hfl2 hnot2
                rw [hopts, hfl] at hfl2
                injection hfl2 with hfl2
                subst hfl2
                exact absurd hmem hnot2
      | none => rw [hOpt] at h; cases h
      | bool x => rw [hOpt] at h; cases h
      | int x => rw [hOpt] at h; cases h
      | str x => rw [hOpt] at h; cases h
      | list x => rw [hOpt] at h; cases h
      | tuple x => rw [hOpt] at h; cases h
      | app x => rw [hOpt] at h; cases h
    | int n => exact hBcb.elim
    | none => exact hBcb.elim
    | bool x => exact hBcb.elim
    | list x => exact hBcb.elim
    | tuple x => exact hBcb.elim
    | dict x => exact hBcb.elim
    | app x => exact hBcb.elim

theorem dPop_eq_none (d : Dict) (k : String) (h : dGet d k = Option.none) :
    dPop d k = Option.none := by
  induction d with
  | nil => rfl
  | cons kv rest ih =>
    obtain ⟨k0, v0⟩ := kv
    by_cases hk : k0 = k
    · simp [dGet, hk] at h
    · simp only [dGet, if_neg hk] at h
      simp [dPop, hk, ih h]

theorem wrapAllConfs_spec (cb : List String) : ∀ (confs confs2 : List Value),
    wrapAllConfs cb confs = .ok confs2 →
    List.Forall₂ (fun v v2 => ∃ d d2, v = Value.dict d ∧ v2 = Value.dict d2 ∧
      wrapConfLoaders cb d = .ok d2) confs confs2 := by
  intro confs
  induction confs with
  | nil =>
    intro confs2 h
    simp only [wrapAllConfs, Except.ok.injEq] at h
    subst h
    exact List.Forall₂.nil
  | cons v rest ih =>
    intro confs2 h
    cases v with
    | dict dd =>
      simp only [wrapAllConfs] at h
      cases hw : wrapConfLoaders cb dd with
      | error e => rw [hw] at h; simp [bind, Except.bind] at h
      | ok d2 =>
        rw [hw] at h
        simp only [bind, Except.bind] at h
        cases hr : wrapAllConfs cb rest with
        | error e => rw [hr] at h; simp at h
        | ok r =>
          rw [hr] at h
          simp only [Except.ok.injEq] at h
          subst h
          exact List.Forall₂.cons ⟨dd, d2, rfl, rfl, hw⟩ (ih r hr)
    | none => simp [wrapAllConfs] at h
    | bool x => simp [wrapAllConfs] at h
    | int x => simp [wrapAllConfs] at h
    | str x => simp [wrapAllConfs] at h
    | list x => simp [wrapAllConfs] at h
    | tuple x => simp [wrapAllConfs] at h
    | app x => simp [wrapAllConfs] at h

/-- C5: in production mode the template loaders are wrapped with the cached
loader.  When DEBUG is truthy the settings (in particular TEMPLATES) are
left unchanged.  When DEBUG is falsy and TEMPLATES is a non-empty list and
the call returns, the new TEMPLATES value pairs each old configuration with
a new one satisfying the claimed postcondition: a cached-backend
configuration has the cached loader among its flattened loaders, and if the
cached loader was not already configured, its new loaders are exactly the
previous ones (or the filesystem loader, plus the app-directories loader
when APP_DIRS was true) nested inside the cached-loader entry. -/
theorem use_cache_template_loader_spec
    (settings : PyModule) (cached_backends : Option (List String)) :
    (truthy (dGetD settings.attrs "DEBUG" (.bool false)) = true →
      use_cache_template_loader_in_production settings cached_backends
        = .ok settings) ∧
    (∀ (confs : List Value) (st' : PyModule),
      truthy (dGetD settings.attrs "DEBUG" (.bool false)) = false →
      dGetD settings.attrs "TEMPLATES" Value.none = .list confs →
      confs ≠ [] →
      use_cache_template_loader_in_production settings cached_backends = .ok st' →
      ∃ confs2, getAttrM st' "TEMPLATES" = some (.list confs2) ∧
        List.Forall₂ (fun v v2 => ∃ d d2, v = Value.dict d ∧ v2 = Value.dict d2 ∧
          WrappedConfPost (effCachedBackends cached_backends) d d2) confs confs2) := by
  constructor
  · intro hdbg
    unfold use_cache_template_loader_in_production
    rw [if_pos (Or.inr hdbg)]
  · intro confs st' hdbg ht hne h
    unfold use_cache_template_loader_in_production at h
    rw [ht] at h
    have hcondf : ¬ (truthy (Value.list confs) = false ∨
        truthy (dGetD settings.attrs "DEBUG" (.bool false)) = true) := by
      intro hc
      rcases hc with hc | hc
      · simp [truthy, List.isEmpty_iff] at hc
        exact hne hc
      · rw [hdbg] at hc; exact Bool.noConfusion hc
    rw [if_neg (by simpa using hcondf)] at h
    simp only [bind, Except.bind] at h
    cases hw : wrapAllConfs (effCachedBackends cached_backends) confs with
    | error e => rw [hw] at h; simp at h
    | ok confs2 =>
      rw [hw] at h
      simp only [Except.ok.injEq] at h
      subst h
      refine ⟨confs2, ?_, ?_⟩
      · rw [getAttrM_setAttrM, if_pos rfl]
      · refine List.Forall₂.imp ?_ (wrapAllConfs_spec _ confs confs2 hw)
        rintro v v2 ⟨dd, d2, rfl, rfl, hwc⟩
        exact ⟨dd, d2, rfl, rfl, wrapConfLoaders_spec _ dd d2 hwc⟩

/-- A concrete template configuration with a cached backend, APP_DIRS true
and no loaders configured. -/
def exTplConfIn : Dict :=
  [("BACKEND", .str DEFAULT_TEMPLATE_BACKEND), ("APP_DIRS", .bool true)]

def exWrap : Value :=
  .tuple [.tuple [.str DEFAULT_CACHED_LOADER,
    .tuple [.str DEFAULT_LOADER, .str DEFAULT_APP_LOADER]]]

def exTplConfOut : Dict :=
  [("BACKEND", .str DEFAULT_TEMPLATE_BACKEND), ("OPTIONS", .dict [("loaders", exWrap)])]

def exSettings : PyModule :=
  ⟨"proj.settings", [("TEMPLATES", .list [.dict exTplConfIn])]⟩

def exSettingsOut : PyModule :=
  ⟨"proj.settings", [("TEMPLATES", .list [.dict exTplConfOut])]⟩

/-- Witness for C5: at the concrete settings above (DEBUG absent hence
falsy), the call wraps the default and app-directories loaders inside the
cached loader and pops APP_DIRS; the claimed postcondition holds for the
configuration pair. -/
theorem use_cache_template_loader_spec_witness :
    use_cache_template_loader_in_production exSettings Option.none
      = .ok exSettingsOut ∧
    WrappedConfPost (effCachedBackends Option.none) exTplConfIn exTplConfOut := by
  refine ⟨rfl, ?_⟩
  obtain ⟨confs2, hattr, hfa⟩ := (use_cache_template_loader_spec exSettings Option.none).2
    [Value.dict exTplConfIn] exSettingsOut rfl rfl (List.cons_ne_nil _ _) rfl
  have hc2 : confs2 = [Value.dict exTplConfOut] := by
    have hval : getAttrM exSettingsOut "TEMPLATES"
        = some (Value.list [Value.dict exTplConfOut]) := rfl
    have hcomb := hval.symm.trans hattr
    injection hcomb with h1
    injection h1 with h2
    exact h2.symm
  subst hc2
  cases hfa with
  | cons h1 h2 =>
    obtain ⟨dd, d2, hd, hd2, hpost⟩ := h1
    injection hd with hd
    injection hd2 with hd2
    subst hd
    subst hd2
    exact hpost

theorem wrapConf_missing_app_dirs (cb : List String) (d : Dict) (b : String)
    (hB : dGet d "BACKEND" = some (.str b)) (hb : b ∈ cb)
    (opts : Dict) (hOpt : dGetD d "OPTIONS" (.dict []) = .dict opts)
    (flat : List String)
    (hfl : flatten_loaders (dGetD opts "loaders" Value.none) = .ok flat)
    (hnot : DEFAULT_CACHED_LOADER ∉ flat)
    (hAD : dGet d "APP_DIRS" = Option.none) :
    wrapConfLoaders cb d = .error (.keyError "APP_DIRS") := by
  unfold wrapConfLoaders
  rw [hB]
  have hcont : (cb.contains b) = true := by simp [List.elem_eq_mem, hb]
  simp only [hcont, if_true]
  rw [fst_dSetdefault, hOpt]
  simp only [bind, Except.bind, hfl]
  rw [if_pos (Or.inr hnot)]
  have hpop : dPop (dSet (dSetdefault d "OPTIONS" (Value.dict [])).2 "OPTIONS"
      (Value.dict (dSet opts "loaders"
        (Value.tuple [.tuple [.str DEFAULT_CACHED_LOADER,
          if truthy (dGetD opts "loaders" Value.none) = false then
            Value.tuple (Value.str DEFAULT_LOADER ::
              if truthy (dGetD (dSetdefault d "OPTIONS" (Value.dict [])).2
                  "APP_DIRS" (Value.bool false)) = true then
                [Value.str DEFAULT_APP_LOADER]
              else [])
          else dGetD opts "loaders" Value.none]])))) "APP_DIRS" = Option.none := by
    apply dPop_eq_none
    rw [dGet_dSet, if_neg (by decide)]
    rw [dGet_dSetdefault_other d "OPTIONS" "APP_DIRS" _ (by decide)]
    exact hAD
  rw [hpop]

theorem wrapAllConfs_error (cb : List String) (err : PyErr) :
    ∀ (pre : List Value) (d : Dict) (post : List Value),
    (∀ v ∈ pre, ∃ d1 d2, v = Value.dict d1 ∧ wrapConfLoaders cb d1 = .ok d2) →
    wrapConfLoaders cb d = .error err →
    wrapAllConfs cb (pre ++ Value.dict d :: post) = .error err := by
  intro pre
  induction pre with
  | nil =>
    intro d post _ hd
    simp only [List.nil_append, wrapAllConfs, hd, bind, Except.bind]
  | cons v rest ih =>
    intro d post hpre hd
    obtain ⟨d1, d2, rfl, hok⟩ := hpre v (List.mem_cons_self _ _)
    simp only [List.cons_append, wrapAllConfs, hok, bind, Except.bind,
      List.append_eq]
    rw [ih d post (fun v hv => hpre v (List.mem_cons_of_mem _ hv)) hd]

/-- C10: with DEBUG falsy and a TEMPLATES list containing a configuration
with a cached backend, whose flattened loaders do not already contain the
cached loader, and which has no APP_DIRS key, the call raises KeyError for
APP_DIRS (all earlier configurations being processed cleanly). -/
theorem use_cache_missing_app_dirs_keyerror
    (settings : PyModule) (cached_backends : Option (List String))
    (pre post : List Value) (d : Dict) (b : String) (opts : Dict)
    (flat : List String)
    (hdbg : truthy (dGetD settings.attrs "DEBUG" (.bool false)) = false)
    (ht : dGetD settings.attrs "TEMPLATES" Value.none
      = .list (pre ++ Value.dict d :: post))
    (hpre : ∀ v ∈ pre, ∃ d1 d2, v = Value.dict d1 ∧
      wrapConfLoaders (effCachedBackends cached_backends) d1 = .ok d2)
    (hB : dGet d "BACKEND" = some (.str b))
    (hb : b ∈ effCachedBackends cached_backends)
    (hOpt : dGetD d "OPTIONS" (.dict []) = .dict opts)
    (hfl : flatten_loaders (dGetD opts "loaders" Value.none) = .ok flat)
    (hnot : DEFAULT_CACHED_LOADER ∉ flat)
    (hAD : dGet d "APP_DIRS" = Option.none) :
    use_cache_template_loader_in_production settings cached_backends
      = .error (.keyError "APP_DIRS") := by
  unfold use_cache_template_loader_in_production
  rw [ht]
  have hcondf : ¬ (truthy (Value.list (pre ++ Value.dict d :: post)) = false ∨
      truthy (dGetD settings.attrs "DEBUG" (.bool false)) = true) := by
    intro hc
    rcases hc with hc | hc
    · simp [truthy, List.isEmpty_iff] at hc
    · rw [hdbg] at hc; exact Bool.noConfusion hc
  rw [if_neg (by simpa using hcondf)]
  have hwc := wrapConf_missing_app_dirs (effCachedBackends cached_backends) d b
    hB hb opts hOpt flat hfl hnot hAD
  show (do
    let confs' ← wrapAllConfs (effCachedBackends cached_backends)
      (pre ++ Value.dict d :: post)
    Except.ok (setAttrM settings "TEMPLATES" (Value.list confs')))
    = Except.error (.keyError "APP_DIRS")
  rw [wrapAllConfs_error _ _ pre d post hpre hwc]
  rfl

/-- Witness for C10: one cached-backend configuration with no OPTIONS, no
loaders and no APP_DIRS key; the call raises KeyError for APP_DIRS. -/
theorem use_cache_missing_app_dirs_keyerror_witness :
    use_cache_template_loader_in_production
      ⟨"proj.settings",
        [("TEMPLATES", .list [.dict [("BACKEND", .str DEFAULT_TEMPLATE_BACKEND)]])]⟩
      Option.none = .error (.keyError "APP_DIRS") := by
  exact use_cache_missing_app_dirs_keyerror
    ⟨"proj.settings",
      [("TEMPLATES", .list [.dict [("BACKEND", .str DEFAULT_TEMPLATE_BACKEND)]])]⟩
    Option.none [] [] [("BACKEND", .str DEFAULT_TEMPLATE_BACKEND)]
    DEFAULT_TEMPLATE_BACKEND [] []
    rfl rfl (fun v hv => absurd hv (List.not_mem_nil v)) rfl
    (List.mem_cons_self _ _) rfl rfl (List.not_mem_nil _) rfl

/-! ## C8: context processors injected from the installed apps -/

/-- C8 counterexample: an app declaring its context processors as a mapping
from backend name to processors.  Because a dict is Iterable, the code wraps
the whole mapping under the default backend and list.extend then iterates
its keys: the my.backend configuration (whose backend had my.cp declared)
is left unchanged, while the default backend gains the bogus processor
name my.backend. -/
theorem context_processors_dict_decl_misrouted :
    add_required_context_processors []
      [[("BACKEND", Value.str DEFAULT_TEMPLATE_BACKEND), ("OPTIONS", Value.dict [])],
       [("BACKEND", Value.str "my.backend"), ("OPTIONS", Value.dict [])]]
      [.app (.mk "myapp" [] (.dict [("my.backend", ["my.cp"])]))]
    = .ok
      [[("BACKEND", Value.str DEFAULT_TEMPLATE_BACKEND),
        ("OPTIONS", Value.dict [("context_processors", Value.tuple [Value.str "my.backend"])])],
       [("BACKEND", Value.str "my.backend"), ("OPTIONS", Value.dict [])]] ∧
    ("my.backend" : String) ≠ "my.cp" :=
  ⟨rfl, by decide⟩

/-- Context-processor declarations that are not mappings (the only forms the
code routes as intended). -/
def NonDictCP : CPDecl → Prop
  | .dict _ => False
  | _ => True

/-- The processors a single non-dict declaration contributes (all under the
default backend). -/
def declaredCP : CPDecl → List String
  | .str s => if s = "" then [] else [s]
  | .iter l => l
  | _ => []

/-- All processors the installed apps declare, in app order. -/
def declaredCPs (cfgs : List AppCfg) : List String :=
  cfgs.flatMap (fun c => declaredCP c.context_processors)

theorem cpContribution_nondict (cp : CPDecl) (h : NonDictCP cp) :
    cpContribution cp = if declaredCP cp = [] then []
      else [(DEFAULT_TEMPLATE_BACKEND, declaredCP cp)] := by
  cases cp with
  | none => rfl
  | str s =>
    by_cases hs : s = ""
    · simp [cpContribution, declaredCP, hs]
    · simp [cpContribution, declaredCP, hs]
  | iter l =>
    by_cases hl : l = []
    · simp [cpContribution, declaredCP, hl]
    · simp [cpContribution, declaredCP, hl, List.isEmpty_iff]
  | dict m => exact h.elim

theorem processors_fold_from_entry :
    ∀ (cfgs : List AppCfg) (l : List String),
    (∀ c ∈ cfgs, NonDictCP c.context_processors) →
    cfgs.foldl (fun acc c =>
        (cpContribution c.context_processors).foldl
          (fun a p => dextend a p.1 p.2) acc)
      [(DEFAULT_TEMPLATE_BACKEND, l)]
      = [(DEFAULT_TEMPLATE_BACKEND, l ++ declaredCPs cfgs)] := by
  intro cfgs
  induction cfgs with
  | nil => intro l _; simp [declaredCPs]
  | cons c rest ih =>
    intro l hnd
    have hc := hnd c (List.mem_cons_self _ _)
    have hrest := fun x hx => hnd x (List.mem_cons_of_mem _ hx)
    simp only [List.foldl_cons]
    rw [cpContribution_nondict c.context_processors hc]
    by_cases hd : declaredCP c.context_processors = []
    · rw [if_pos hd]
      simp only [List.foldl_nil]
      rw [ih l hrest]
      simp [declaredCPs, hd]
    · rw [if_neg hd]
      simp only [List.foldl_cons, List.foldl_nil, dextend, eq_self_iff_true, if_true]
      rw [ih _ hrest]
      simp [declaredCPs, List.append_assoc]

theorem processorsOf_nondict (cfgs : List AppCfg)
    (h : ∀ c ∈ cfgs, NonDictCP c.context_processors) :
    processorsOf cfgs = if declaredCPs cfgs = [] then []
      else [(DEFAULT_TEMPLATE_BACKEND, declaredCPs cfgs)] := by
  unfold processorsOf
  induction cfgs with
  | nil => simp [declaredCPs]
  | cons c rest ih =>
    have hc := h c (List.mem_cons_self _ _)
    have hrest := fun x hx => h x (List.mem_cons_of_mem _ hx)
    simp only [List.foldl_cons]
    rw [cpContribution_nondict c.context_processors hc]
    by_cases hd : declaredCP c.context_processors = []
    · rw [if_pos hd]
      simp only [List.foldl_nil]
      rw [ih hrest]
      simp [declaredCPs, hd]
    · rw [if_neg hd]
      simp only [List.foldl_cons, List.foldl_nil, dextend, eq_self_iff_true, if_true]
      rw [processors_fold_from_entry rest _ hrest]
      have : declaredCPs (c :: rest) = declaredCP c.context_processors ++ declaredCPs rest := by
        simp [declaredCPs]
      rw [this]
      rw [if_neg (by intro hcon; exact hd (List.append_eq_nil.mp hcon).1)]

theorem isBackendB_eq_true (d : Dict) (b : String) (h : isBackendB d b = true) :
    dGet d "BACKEND" = some (.str b) := by
  unfold isBackendB at h
  cases hB : dGet d "BACKEND" with
  | none => rw [hB] at h; cases h
  | some v =>
    rw [hB] at h
    cases v with
    | str t =>
      have : t = b := by simpa using h
      rw [this]
    | none => cases h
    | bool x => cases h
    | int x => cases h
    | list x => cases h
    | tuple x => cases h
    | dict x => cases h
    | app x => cases h

theorem lastIdxBackend_none_spec : ∀ (ts : List Dict) (b : String),
    lastIdxBackend ts b = Option.none →
    ∀ (j : Nat) (hj : j < ts.length), isBackendB (ts.get ⟨j, hj⟩) b = false := by
  intro ts
  induction ts with
  | nil => intro b _ j hj; simp at hj
  | cons d rest ih =>
    intro b h j hj
    simp only [lastIdxBackend] at h
    cases hr : lastIdxBackend rest b with
    | some i => rw [hr] at h; cases h
    | none =>
      rw [hr] at h
      by_cases hb : isBackendB d b = true
      · rw [if_pos hb] at h; cases h
      · cases j with
        | zero => simpa using hb
        | succ j0 =>
          exact ih b hr j0 (Nat.lt_of_succ_lt_succ hj)

theorem lastIdxBackend_some_spec : ∀ (ts : List Dict) (b : String) (j : Nat),
    lastIdxBackend ts b = some j →
    ∃ hj : j < ts.length, isBackendB (ts.get ⟨j, hj⟩) b = true := by
  intro ts
  induction ts with
  | nil => intro b j h; cases h
  | cons d rest ih =>
    intro b j h
    simp only [lastIdxBackend] at h
    cases hr : lastIdxBackend rest b with
    | some i =>
      rw [hr] at h
      simp only [Option.some.injEq] at h
      subst h
      obtain ⟨hi, hb⟩ := ih b i hr
      exact ⟨Nat.succ_lt_succ hi, hb⟩
    | none =>
      rw [hr] at h
      by_cases hb : isBackendB d b = true
      · rw [if_pos hb] at h
        simp only [Option.some.injEq] at h
        subst h
        exact ⟨Nat.succ_pos _, hb⟩
      · rw [if_neg hb] at h; cases h

/-- C8 amended: for string and iterable declarations (the forms the code
routes; a mapping declaration is misrouted, see the counterexample) and
template backends pairwise distinct, update of the templates by
add_required_context_processors behaves as the claim says: configurations
whose backend is not the default backend are left unchanged, and when some
processors are declared the (unique) default-backend configuration receives
OPTIONS context_processors equal to its previous processors followed by the
declared ones with duplicates removed keeping the first occurrence; with no
declared processors nothing changes. -/
theorem add_required_context_processors_spec
    (env : AppEnv) (templates : List Dict) (installed_apps : List Entry)
    (cfgs : List AppCfg) (templates2 : List Dict)
    (hres : resolveAll env installed_apps = .ok cfgs)
    (hnd : ∀ c ∈ cfgs, NonDictCP c.context_processors)
    (h : add_required_context_processors env templates installed_apps
      = .ok templates2) :
    (declaredCPs cfgs = [] → templates2 = templates) ∧
    templates2.length = templates.length ∧
    (∀ (j : Nat) (hj : j < templates.length) (hj2 : j < templates2.length),
      isBackendB (templates.get ⟨j, hj⟩) DEFAULT_TEMPLATE_BACKEND = false →
      templates2.get ⟨j, hj2⟩ = templates.get ⟨j, hj⟩) ∧
    (∀ (j : Nat) (hj : j < templates.length) (hj2 : j < templates2.length),
      isBackendB (templates.get ⟨j, hj⟩) DEFAULT_TEMPLATE_BACKEND = true →
      (templates.map (fun dd => dGet dd "BACKEND")).Nodup →
      declaredCPs cfgs ≠ [] →
      ∀ old, strsOf (match dGetD (optsOf (templates.get ⟨j, hj⟩))
          "context_processors" (.tuple []) with
        | .tuple xs => xs
        | .list xs => xs
        | v => [v]) = some old →
      templates2.get ⟨j, hj2⟩ =
        dSet (dSetdefault (templates.get ⟨j, hj⟩) "OPTIONS" (.dict [])).2 "OPTIONS"
          (.dict (dSet (optsOf (templates.get ⟨j, hj⟩)) "context_processors"
            (.tuple ((pyUnique (old ++ declaredCPs cfgs)).map .str))))) := by
  unfold add_required_context_processors at h
  rw [hres] at h
  simp only [bind, Except.bind] at h
  rw [processorsOf_nondict cfgs hnd] at h
  by_cases hdecl : declaredCPs cfgs = []
  · rw [if_pos hdecl] at h
    simp only [List.foldlM_nil, pure, Except.pure, Except.ok.injEq] at h
    subst h
    exact ⟨fun _ => rfl, rfl, fun j hj hj2 _ => rfl,
      fun j hj hj2 _ _ hne => absurd hdecl hne⟩
  · rw [if_neg hdecl] at h
    simp only [List.foldlM_cons, List.foldlM_nil, bind, Except.bind] at h
    cases happ : applyBackendCps templates DEFAULT_TEMPLATE_BACKEND (declaredCPs cfgs) with
    | error e => rw [happ] at h; cases h
    | ok t2 =>
      rw [happ] at h
      simp only [pure, Except.pure, Except.ok.injEq] at h
      subst h
      unfold applyBackendCps at happ
      cases hli : lastIdxBackend templates DEFAULT_TEMPLATE_BACKEND with
      | none =>
        rw [hli] at happ
        simp only [Except.ok.injEq] at happ
        subst happ
        refine ⟨fun hd => absurd hd hdecl, rfl, fun j hj hj2 _ => rfl, ?_⟩
        intro j hj hj2 htrue _ _ _ _
        have := lastIdxBackend_none_spec templates DEFAULT_TEMPLATE_BACKEND hli j hj
        rw [htrue] at this
        cases this
      | some i =>
        rw [hli] at happ
        obtain ⟨hi, hbi⟩ := lastIdxBackend_some_spec templates DEFAULT_TEMPLATE_BACKEND i hli
        have hge : templates[i]? = some (templates.get ⟨i, hi⟩) := by
          rw [List.getElem?_eq_getElem hi]
          simp
        have happ2 : (match templates[i]? with
            | some conf => Except.map (fun x => templates.set i x)
                (updateConfCps conf (declaredCPs cfgs))
            | Option.none => Except.ok templates) = Except.ok t2 := happ
        rw [hge] at happ2
        have happ3 : Except.map (fun x => templates.set i x)
            (updateConfCps (templates.get ⟨i, hi⟩) (declaredCPs cfgs))
            = Except.ok t2 := happ2
        cases hupd : updateConfCps (templates.get ⟨i, hi⟩) (declaredCPs cfgs) with
        | error e => rw [hupd] at happ3; simp [Except.map] at happ3
        | ok nc =>
          rw [hupd] at happ3
          simp only [Except.map, Except.ok.injEq] at happ3
          subst happ3
          unfold updateConfCps at hupd
          simp only [] at hupd
          rw [fst_dSetdefault] at hupd
          cases hOpt : dGetD (templates.get ⟨i, hi⟩) "OPTIONS" (.dict []) with
          | dict opts =>
            rw [hOpt] at hupd
            simp only [] at hupd
            have hoptseq : optsOf (templates.get ⟨i, hi⟩) = opts := by
              unfold optsOf; rw [hOpt]
            cases hstr : strsOf (match dGetD opts "context_processors" (.tuple []) with
              | .tuple xs => xs
              | .list xs => xs
              | v => [v]) with
            | none => rw [hstr] at hupd; cases hupd
            | some old0 =>
              rw [hstr] at hupd
              simp only [Except.ok.injEq] at hupd
              refine ⟨fun hd => absurd hd hdecl, by simp, ?_, ?_⟩
              · intro j hj hj2 hfalse
                have hne : i ≠ j := by
                  intro he
                  subst he
                  rw [hbi] at hfalse
                  cases hfalse
                simp only [List.get_eq_getElem]
                exact List.getElem_set_ne hne _
              · intro j hj hj2 htrue hnodup hdne old hold
                have hij : i = j := by
                  have hvi : dGet (templates.get ⟨i, hi⟩) "BACKEND"
                      = some (.str DEFAULT_TEMPLATE_BACKEND) := isBackendB_eq_true _ _ hbi
                  have hvj : dGet (templates.get ⟨j, hj⟩) "BACKEND"
                      = some (.str DEFAULT_TEMPLATE_BACKEND) := isBackendB_eq_true _ _ htrue
                  have hmi : i < (templates.map (fun dd => dGet dd "BACKEND")).length := by
                    simpa using hi
                  have hmj : j < (templates.map (fun dd => dGet dd "BACKEND")).length := by
                    simpa using hj
                  have hmap : (templates.map (fun dd => dGet dd "BACKEND")).get ⟨i, hmi⟩
                      = (templates.map (fun dd => dGet dd "BACKEND")).get ⟨j, hmj⟩ := by
                    simp only [List.get_eq_getElem, List.getElem_map]
                    simp only [List.get_eq_getElem] at hvi hvj
                    rw [hvi, hvj]
                  simp only [List.get_eq_getElem] at hmap
                  exact (hnodup.getElem_inj_iff).mp hmap
                have hgg : templates.get ⟨i, hi⟩ = templates.get ⟨j, hj⟩ := by
                  cases hij; rfl
                have hset : (templates.set i nc).get ⟨j, hj2⟩ = nc := by
                  cases hij
                  simp only [List.get_eq_getElem]
                  exact List.getElem_set_self _
                rw [hset, ← hupd]
                rw [hgg] at hoptseq
                have holdeq : old = old0 := by
                  rw [hoptseq] at hold
                  rw [hstr] at hold
                  exact (Option.some.inj hold).symm
                rw [holdeq, hgg, hoptseq]
          | none => rw [hOpt] at hupd; cases hupd
          | bool x => rw [hOpt] at hupd; cases hupd
          | int x => rw [hOpt] at hupd; cases hupd
          | str x => rw [hOpt] at hupd; cases hupd
          | list x => rw [hOpt] at hupd; cases hupd
          | tuple x => rw [hOpt] at hupd; cases hupd
          | app x => rw [hOpt] at hupd; cases hupd

/-- Example inputs for the context-processor pass: one app declaring two
processors as an iterable, and one default-backend template configuration
that already lists one of them. -/
def exC8Apps : List Entry := [.app (.mk "app" [] (.iter ["cp.new", "cp.old"]))]

def exC8Cfgs : List AppCfg := [.mk "app" [] (.iter ["cp.new", "cp.old"])]

def exC8Tpls : List Dict :=
  [[("BACKEND", Value.str DEFAULT_TEMPLATE_BACKEND),
    ("OPTIONS", Value.dict [("context_processors", Value.tuple [Value.str "cp.old"])])]]

def exC8Out : List Dict :=
  [[("BACKEND", Value.str DEFAULT_TEMPLATE_BACKEND),
    ("OPTIONS", Value.dict [("context_processors",
      Value.tuple [Value.str "cp.old", Value.str "cp.new"])])]]

/-- Witness for C8: on the example inputs the pass succeeds and the
conclusion holds; the resulting default-backend configuration lists cp.old
first (kept from before, its duplicate removed) followed by cp.new. -/
theorem add_required_context_processors_spec_witness :
    ((declaredCPs exC8Cfgs = [] → exC8Out = exC8Tpls) ∧
      exC8Out.length = exC8Tpls.length ∧
      (∀ (j : Nat) (hj : j < exC8Tpls.length) (hj2 : j < exC8Out.length),
        isBackendB (exC8Tpls.get ⟨j, hj⟩) DEFAULT_TEMPLATE_BACKEND = false →
        exC8Out.get ⟨j, hj2⟩ = exC8Tpls.get ⟨j, hj⟩) ∧
      (∀ (j : Nat) (hj : j < exC8Tpls.length) (hj2 : j < exC8Out.length),
        isBackendB (exC8Tpls.get ⟨j, hj⟩) DEFAULT_TEMPLATE_BACKEND = true →
        (exC8Tpls.map (fun dd => dGet dd "BACKEND")).Nodup →
        declaredCPs exC8Cfgs ≠ [] →
        ∀ old, strsOf (match dGetD (optsOf (exC8Tpls.get ⟨j, hj⟩))
            "context_processors" (.tuple []) with
          | .tuple xs => xs
          | .list xs => xs
          | v => [v]) = some old →
        exC8Out.get ⟨j, hj2⟩ =
          dSet (dSetdefault (exC8Tpls.get ⟨j, hj⟩) "OPTIONS" (.dict [])).2 "OPTIONS"
            (.dict (dSet (optsOf (exC8Tpls.get ⟨j, hj⟩)) "context_processors"
              (.tuple ((pyUnique (old ++ declaredCPs exC8Cfgs)).map .str)))))) ∧
    exC8Out =
      [[("BACKEND", Value.str DEFAULT_TEMPLATE_BACKEND),
        ("OPTIONS", Value.dict [("context_processors",
          Value.tuple [Value.str "cp.old", Value.str "cp.new"])])]] :=
  ⟨add_required_context_processors_spec [] exC8Tpls exC8Apps exC8Cfgs exC8Out
      rfl
      (fun c hc => by
        unfold exC8Cfgs at hc
        rw [List.mem_singleton] at hc
        subst hc
        trivial)
      rfl,
    rfl⟩
